import Mathlib

/-!
# TTM metrics API — carousel and game-engine core, formalised

A shallow embedding of the cycle state machine (`carousel.py`) and the
gamification derivation layer (`game_engine.py`) of the ttm-metrics-api
repository, together with proofs of the specified properties.

Modelling conventions:
* timestamps are integers (seconds since epoch); Python's
  `datetime.utcnow()` values become an explicit `now : Int` argument;
* float one-rep-max values are modelled as rationals (`ℚ`);
* the database tables consumed by the core (`PR`, `Workout`,
  `WorkoutCompletion`, `CycleState`, `GameState`, `WorkoutSession`) are
  modelled as explicit arguments: completion counters as a total map
  `String → Nat` (a missing row reads as 0, exactly as
  `_get_completions` defaults), the lift-record table as a list of
  records, the rotation-letter set as the sorted distinct list the
  queries return;
* an operation that raises `HTTPException` is modelled as returning
  `none`.
-/

namespace TTM

/-- `COMPLETIONS_PER_LETTER = 6` from `carousel.py`. -/
def COMPLETIONS_PER_LETTER : Nat := 6

/-- `INACTIVITY_DAYS = 7` from `carousel.py`. -/
def INACTIVITY_DAYS : Int := 7

/-- One row of the `CycleState` table (per-user rotation state).
`current_position` is an `Int`: the cycle-reset path of
`advance_carousel` transiently assigns `-1`. -/
structure CycleState where
  current_position : Int
  position_started_at : Int
  deload_mode : Bool
  cycle_started_at : Int
  cycle_number : Nat
deriving Repr, DecidableEq

/-- The per-user carousel state that `advance_carousel` reads and
writes: the `CycleState` row plus the `WorkoutCompletion` counters,
modelled as a total map defaulting to 0. -/
structure CarouselState where
  cycle : CycleState
  completions : String → Nat

/-- One row of the `PR` table (one logged lift record). -/
structure PRRecord where
  exercise : String
  estimated_1rm : ℚ
  timestamp : Int
deriving Repr, DecidableEq

/-- `letters[state.current_position % num]`: the letter of the rotation
slot a position denotes.  Python's `%` on a positive modulus returns a
value in `[0, num)`, as does `Int.emod`. -/
def letterAt (letters : List String) (pos : Int) : String :=
  (letters[(pos % (letters.length : Int)).toNat]?).getD ""

/-- `_increment_completion`: bump one letter's completion counter
(creating the row at 0 first if absent). -/
def incrementCompletion (comp : String → Nat) (letter : String) : String → Nat :=
  fun l => if l = letter then comp l + 1 else comp l

/-- `_reset_completions`: zero every completion counter. -/
def resetCompletions : String → Nat := fun _ => 0

/-- The payload `advance_carousel` hands back to its caller: the new
state plus the notification booleans and the pre-advance letter. -/
structure AdvanceResult where
  state : CarouselState
  entered_deload : Bool
  cycle_reset : Bool
  completed_letter : String

/-- `advance_carousel` from `carousel.py` (lines 306–387), with the
member lookup, Discord notification dispatch, and response assembly
stripped; `none` models the 400 error on an empty letter set. -/
def advance_carousel (letters : List String) (now : Int) (s : CarouselState) :
    Option AdvanceResult :=
  if letters.isEmpty then none
  else
    let currentLetter := letterAt letters s.cycle.current_position
    let step : (CycleState × (String → Nat)) × Bool × Bool :=
      if s.cycle.deload_mode = false then
        -- Normal mode: increment completion for the current letter,
        -- then check whether every letter hit the target.
        let comp1 := incrementCompletion s.completions currentLetter
        if letters.all (fun l => COMPLETIONS_PER_LETTER ≤ comp1 l) then
          (({ s.cycle with
              deload_mode := true }, resetCompletions), true, false)
        else
          ((s.cycle, comp1), false, false)
      else
        -- Deload mode: mark the current letter done, then check
        -- whether every letter has its deload pass recorded.
        let comp1 := incrementCompletion s.completions currentLetter
        if letters.all (fun l => 1 ≤ comp1 l) then
          (({ s.cycle with
              deload_mode := false
              cycle_number := s.cycle.cycle_number + 1
              cycle_started_at := now
              current_position := -1 }, resetCompletions), false, true)
        else
          ((s.cycle, comp1), false, false)
    -- Unconditional for all paths: position += 1, stamp the position.
    some {
      state := {
        cycle := { step.1.1 with
          current_position := step.1.1.current_position + 1,
          position_started_at := now }
        completions := step.1.2 }
      entered_deload := step.2.1
      cycle_reset := step.2.2
      completed_letter := currentLetter }

/-- `go_back_carousel` from `carousel.py` (lines 394–438).  `none`
models the 400 errors (no letters configured / already at the
beginning).  The decrement floors at 0, exactly as the guarded
`completion_count -= 1` does. -/
def go_back_carousel (letters : List String) (now : Int) (s : CarouselState) :
    Option CarouselState :=
  if letters.isEmpty then none
  else if s.cycle.current_position ≤ 0 then none
  else
    let prevPosition := s.cycle.current_position - 1
    let prevLetter := letterAt letters prevPosition
    some {
      cycle := { s.cycle with
        deload_mode := false,
        current_position := prevPosition,
        position_started_at := now }
      completions := fun l => if l = prevLetter then s.completions l - 1 else s.completions l }

/-- `check_inactivity_reset` from `carousel.py` (lines 244–298).
`latestPr` is the result of the most-recent-record query;
`exercisesFor` is the `Workout.exercise_name` query per letter.  The
float comparison `days_since < INACTIVITY_DAYS` is
`(now - ts) / 86400 < 7` over exact integer-second inputs, which is
equivalent to `now - ts < 7 * 86400`.  The Python truthiness test
`if last_letter` is false for the empty string, hence the `l ≠ ""`
guard. -/
def check_inactivity_reset (letters : List String) (latestPr : Option PRRecord)
    (exercisesFor : String → List String) (now : Int) (s : CarouselState) :
    Bool × CarouselState :=
  if letters.isEmpty then (false, s)
  else
    match latestPr with
    | none => (false, s)
    | some pr =>
      if now - pr.timestamp < INACTIVITY_DAYS * 86400 then (false, s)
      else
        let lastLetter := letters.find? (fun l => (exercisesFor l).contains pr.exercise)
        let nextIdx : Nat :=
          match lastLetter with
          | some l => if l ≠ "" then (letters.indexOf l + 1) % letters.length else 0
          | none => 0
        (true,
          { cycle := {
              current_position := (nextIdx : Int),
              position_started_at := now,
              deload_mode := false,
              cycle_number := s.cycle.cycle_number + 1,
              cycle_started_at := now }
            completions := resetCompletions })

/-- Run a sequence of advances, one per timestamp in `times`; a failing
advance (empty letter set) leaves the state unchanged. -/
def advanceTimes (letters : List String) : List Int → CarouselState → CarouselState
  | [], s => s
  | t :: ts, s =>
    match advance_carousel letters t s with
    | some r => advanceTimes letters ts r.state
    | none => advanceTimes letters ts s

/-- Python's `round(x, 1)`: decimal rounding to one fractional digit.
Python rounds exact midpoints to even; midpoints aside, this is
`round (10 * x) / 10`. -/
def roundTenth (x : ℚ) : ℚ := (round (10 * x) : ℤ) / 10

/-- One entry of `calculate_strength_gains`' `exercises` list. -/
structure GainEntry where
  name : String
  first_1rm : ℚ
  latest_1rm : ℚ
  change_pct : ℚ
deriving Repr, DecidableEq

/-- The dict `calculate_strength_gains` returns when it has data. -/
structure StrengthGains where
  exercises : List GainEntry
  avg_change_pct : ℚ
deriving Repr, DecidableEq

/-- The per-exercise body of the loop in `calculate_strength_gains`
(lines 161–174): skip with fewer than 2 records, take the earliest and
latest `estimated_1rm`, skip a non-positive baseline. -/
def gainEntryFor (cycle_prs : List PRRecord) (ex : String) : Option GainEntry :=
  let prs := cycle_prs.filter (fun p => p.exercise = ex)
  if prs.length < 2 then none
  else
    let first_1rm := (prs.map PRRecord.estimated_1rm).headD 0
    let latest_1rm := (prs.map PRRecord.estimated_1rm).getLastD 0
    if first_1rm ≤ 0 then none
    else
      let change_pct := (latest_1rm - first_1rm) / first_1rm * 100
      some ⟨ex, roundTenth first_1rm, roundTenth latest_1rm, roundTenth change_pct⟩

/-- The descending `change_pct` order used by
`exercises.sort(key=..., reverse=True)`. -/
def gainsDescOrder : GainEntry → GainEntry → Prop := fun a b => b.change_pct ≤ a.change_pct

instance : DecidableRel gainsDescOrder :=
  fun a b => (inferInstance : Decidable (b.change_pct ≤ a.change_pct))

/-- `calculate_strength_gains` from `carousel.py` (lines 131–186).
`userPrs` is the user's `PR` table in timestamp-ascending order (the
query's `order_by`); the window filter keeps records at or after
`cycle_started_at`.  Grouping by exercise keeps first-appearance order
(Python dict insertion order); `none` models the `None` returns. -/
def calculate_strength_gains (cycle_started_at : Int) (userPrs : List PRRecord) :
    Option StrengthGains :=
  let cycle_prs := userPrs.filter (fun p => cycle_started_at ≤ p.timestamp)
  if cycle_prs.isEmpty then none
  else
    let names := (cycle_prs.map PRRecord.exercise).dedup
    let exercises := names.filterMap (gainEntryFor cycle_prs)
    if exercises.isEmpty then none
    else
      let avg_change := (exercises.map GainEntry.change_pct).sum / (exercises.length : ℚ)
      some ⟨exercises.insertionSort gainsDescOrder, roundTenth avg_change⟩

/-! ## Game engine (`game_engine.py`) -/

/-- `CHARGE_UP_THRESHOLD = 0.85`. -/
def CHARGE_UP_THRESHOLD : ℚ := 85 / 100

/-- `CHARGE_UP_MAX = 5`. -/
def CHARGE_UP_MAX : Nat := 5

/-- `BAD_DAY_THRESHOLD = 0.80`. -/
def BAD_DAY_THRESHOLD : ℚ := 80 / 100

/-- `BAD_DAY_MIN_EXERCISES = 2`. -/
def BAD_DAY_MIN_EXERCISES : Nat := 2

/-- `ANOMALY_THRESHOLD = 0.25`. -/
def ANOMALY_THRESHOLD : ℚ := 25 / 100

/-- `CHARGEUP_MIN_WORK_SETS = 8`. -/
def CHARGEUP_MIN_WORK_SETS : Nat := 8

/-- `HIGHER_LOW_MIN_WORK_SETS = 10`. -/
def HIGHER_LOW_MIN_WORK_SETS : Nat := 10

/-- `PR_MAGNITUDE_MIN_WORK_SETS = 3`. -/
def PR_MAGNITUDE_MIN_WORK_SETS : Nat := 3

/-- One row of the `GameState` table (per user and exercise). -/
structure GameState where
  charge_up_count : Nat
  charge_up_last_updated : Option Int
  work_set_count : Nat
  first_e1rm : Option ℚ
  first_log_date : Option Int
  floor_e1rm : Option ℚ
deriving Repr, DecidableEq

/-- The fresh row `get_or_create_game_state` inserts:
`charge_up_count = 0`, `work_set_count = 0`, everything else unset. -/
def freshGameState : GameState :=
  { charge_up_count := 0
    charge_up_last_updated := none
    work_set_count := 0
    first_e1rm := none
    first_log_date := none
    floor_e1rm := none }

/-- The dict `update_charge_up` returns when there was charge-up
activity: either a release event (carrying the pre-reset counter) or an
increment (carrying the new counter value). -/
structure ChargeUpEvent where
  released : Bool
  count : Nat
deriving Repr, DecidableEq

/-- `update_charge_up` from `game_engine.py` (lines 80–118), on an
existing `GameState` row (the missing-row query branch is a no-op
returning `None` and is handled by the caller).  Python's truthiness
test `if best_e1rm and best_e1rm > 0` is `0 < best` on a present
value. -/
def update_charge_up (now : Int) (estimated_1rm : ℚ) (is_pr : Bool)
    (best_e1rm : Option ℚ) (gs : GameState) : GameState × Option ChargeUpEvent :=
  if gs.work_set_count < CHARGEUP_MIN_WORK_SETS then (gs, none)
  else if is_pr then
    let released_count := gs.charge_up_count
    let gs1 := { gs with
      charge_up_count := 0
      charge_up_last_updated := some now }
    if 0 < released_count then (gs1, some ⟨true, released_count⟩) else (gs1, none)
  else
    match best_e1rm with
    | some best =>
      if 0 < best ∧ 0 < estimated_1rm then
        if CHARGE_UP_THRESHOLD ≤ estimated_1rm / best then
          let newCount := min (gs.charge_up_count + 1) CHARGE_UP_MAX
          ({ gs with
             charge_up_count := newCount
             charge_up_last_updated := some now }, some ⟨false, newCount⟩)
        else (gs, none)
      else (gs, none)
    | none => (gs, none)

/-- One element of the `session_logs` list `detect_bad_day` consumes. -/
structure SessionLog where
  exercise : String
  estimated_1rm : ℚ
deriving Repr, DecidableEq

/-- The per-log test inside `detect_bad_day`'s loop: skipped (`continue`)
when the exercise has no recorded best or a non-positive one (Python's
`if not best or best <= 0`), counted when the ratio to best is below
`BAD_DAY_THRESHOLD`. -/
def belowBestThreshold (best_e1rms : String → Option ℚ) (log : SessionLog) : Bool :=
  match best_e1rms log.exercise with
  | none => false
  | some best =>
    if best ≤ 0 then false else decide (log.estimated_1rm / best < BAD_DAY_THRESHOLD)

/-- `detect_bad_day` from `game_engine.py` (lines 141–155): count the
below-threshold logs and compare with `BAD_DAY_MIN_EXERCISES`. -/
def detect_bad_day (session_logs : List SessionLog) (best_e1rms : String → Option ℚ) : Bool :=
  BAD_DAY_MIN_EXERCISES ≤ session_logs.countP (belowBestThreshold best_e1rms)

/-- `check_higher_low` from `game_engine.py` (lines 158–163). -/
def check_higher_low (estimated_1rm : ℚ) (floor_e1rm : Option ℚ)
    (bad_day_detected : Bool) : Bool :=
  if bad_day_detected = false then false
  else
    match floor_e1rm with
    | none => false
    | some f => if f ≤ 0 then false else decide (f < estimated_1rm)

/-- `check_anomaly` from `game_engine.py` (lines 170–175). -/
def check_anomaly (new_e1rm : ℚ) (previous_best_e1rm : Option ℚ) : Bool :=
  match previous_best_e1rm with
  | none => false
  | some prev =>
    if prev ≤ 0 then false else decide (ANOMALY_THRESHOLD < (new_e1rm - prev) / prev)

/-- `compute_pr_magnitude_pct` from `game_engine.py` (lines 178–182). -/
def compute_pr_magnitude_pct (new_e1rm : ℚ) (previous_best_e1rm : Option ℚ) : Option ℚ :=
  match previous_best_e1rm with
  | none => none
  | some prev => if prev ≤ 0 then none else some ((new_e1rm - prev) / prev * 100)

/-- The `func.max(PR.estimated_1rm)` query for one exercise followed by
`best or 0`: the all-time best over the user's lift records, 0 when
there is none (or it is 0). -/
def bestOrZero (userPrs : List PRRecord) (ex : String) : ℚ :=
  (((userPrs.filter (fun p => p.exercise = ex)).map PRRecord.estimated_1rm).max?).getD 0

/-- The `best_e1rms` dict built in `update_game_state_on_log`'s
higher-low block: one entry per exercise appearing in the session's
records. -/
def sessionBestMap (userPrs sessionPrs : List PRRecord) : String → Option ℚ :=
  fun ex =>
    if sessionPrs.any (fun p => p.exercise = ex) then some (bestOrZero userPrs ex) else none

/-- Python truthiness of the stored `floor_e1rm` (`and gs.floor_e1rm`):
present and nonzero. -/
def floorTruthy : Option ℚ → Bool
  | none => false
  | some f => decide (f ≠ 0)

/-- The higher-low block of `update_game_state_on_log` (lines 272–300):
only on a non-PR log past the higher-low floor with a truthy stored
floor, and only when the current session window holds at least two
records whose below-best count flags a bad day.  `sessionOpened` is the
most recent `WorkoutSession.opened_at`; `userPrs` is the user's `PR`
table. -/
def computeHigherLowOnLog (estimated_1rm : ℚ) (is_pr : Bool)
    (sessionOpened : Option Int) (userPrs : List PRRecord) (gs : GameState) : Bool :=
  if is_pr = false ∧ HIGHER_LOW_MIN_WORK_SETS ≤ gs.work_set_count ∧
      floorTruthy gs.floor_e1rm = true then
    match sessionOpened with
    | none => false
    | some opened =>
      let session_prs := userPrs.filter (fun p => opened ≤ p.timestamp)
      if 2 ≤ session_prs.length then
        let session_logs := session_prs.map (fun p => SessionLog.mk p.exercise p.estimated_1rm)
        if detect_bad_day session_logs (sessionBestMap userPrs session_prs) then
          check_higher_low estimated_1rm gs.floor_e1rm true
        else false
      else false
  else false

/-- The `game_update` dict `update_game_state_on_log` returns. -/
structure GameUpdate where
  charge_up : Nat
  pr_magnitude_pct : Option ℚ
  is_anomaly : Bool
  charge_up_released : Bool
  charge_up_released_count : Nat
  higher_low : Bool
deriving Repr, DecidableEq

/-- `gs.work_set_count += 1` (`update_game_state_on_log` line 251). -/
def bumpWorkSetCount (gs : GameState) : GameState :=
  { gs with work_set_count := gs.work_set_count + 1 }

/-- Lines 254–256: set `first_e1rm` and `first_log_date` on the first
log (`if gs.first_e1rm is None`). -/
def setFirstOnFirstLog (now : Int) (estimated_1rm : ℚ) (gs : GameState) : GameState :=
  if gs.first_e1rm = none then
    { gs with
      first_e1rm := some estimated_1rm
      first_log_date := some now }
  else gs

/-- Lines 259–260: lower the historical floor
(`if gs.floor_e1rm is None or estimated_1rm < gs.floor_e1rm`). -/
def updateFloorE1rm (estimated_1rm : ℚ) (gs : GameState) : GameState :=
  match gs.floor_e1rm with
  | none => { gs with floor_e1rm := some estimated_1rm }
  | some f =>
    if estimated_1rm < f then { gs with floor_e1rm := some estimated_1rm } else gs

/-- Lines 262–267: PR magnitude and anomaly flags, gated on
`is_pr and gs.work_set_count >= PR_MAGNITUDE_MIN_WORK_SETS` — the count
already includes the log being processed. -/
def prMagnitudeAnomaly (estimated_1rm : ℚ) (is_pr : Bool) (best_e1rm : Option ℚ)
    (gs : GameState) : Option ℚ × Bool :=
  if is_pr = true ∧ PR_MAGNITUDE_MIN_WORK_SETS ≤ gs.work_set_count then
    (compute_pr_magnitude_pct estimated_1rm best_e1rm,
     check_anomaly estimated_1rm best_e1rm)
  else (none, false)

/-- Lines 312–313: `game_update.update(charge_up_result)` — a release
event overrides the released flags, an increment event overrides
`charge_up`. -/
def applyChargeUpdate (base : GameUpdate) : Option ChargeUpEvent → GameUpdate
  | none => base
  | some ev =>
    if ev.released then
      { base with charge_up_released := true, charge_up_released_count := ev.count }
    else
      { base with charge_up := ev.count }

/-- `update_game_state_on_log` from `game_engine.py` (lines 241–315), on
the fetched-or-created row `gs0` (`get_or_create_game_state`).  The
mutation order of the source is kept: the work-set counter is bumped
first, then first/floor values, then PR magnitude and anomaly (gated on
the already-bumped counter), then charge-up, then higher-low. -/
def update_game_state_on_log (now : Int) (estimated_1rm : ℚ) (is_pr : Bool)
    (best_e1rm : Option ℚ) (sessionOpened : Option Int) (userPrs : List PRRecord)
    (gs0 : GameState) : GameState × GameUpdate :=
  let gs3 := updateFloorE1rm estimated_1rm
    (setFirstOnFirstLog now estimated_1rm (bumpWorkSetCount gs0))
  let magPair := prMagnitudeAnomaly estimated_1rm is_pr best_e1rm gs3
  let chargeStep := update_charge_up now estimated_1rm is_pr best_e1rm gs3
  let gs4 := chargeStep.1
  let higher_low := computeHigherLowOnLog estimated_1rm is_pr sessionOpened userPrs gs4
  let base : GameUpdate := {
    charge_up := gs4.charge_up_count
    pr_magnitude_pct := magPair.1.map roundTenth
    is_anomaly := magPair.2
    charge_up_released := false
    charge_up_released_count := 0
    higher_low := higher_low }
  (gs4, applyChargeUpdate base chargeStep.2)

/-- The `REFRAME_COPY` table (`game_engine.py` lines 39–51) as the map
`dict.get(·, [])` realises: variant texts per reframe type, `[]` for an
unknown type. -/
def REFRAME_COPY : String → List String
  | "R1" => ["Pressure building.", "Spring loading.", "Body adapting. PR incoming."]
  | "R1_release" => ["Pressure released.", "That\x27s what grinding builds.", "Spring unloaded."]
  | "R3" => ["Floor raised.", "Higher low. That counts.", "Net gain on a tough day."]
  | "R4" => ["Fresh cycle. 6 ahead.", "Break was the deload. Reloaded.",
             "Picking up where you left off."]
  | "R7" => ["Core foods held through the gap. Still in the game.",
             "Didn\x27t train. Still ate right. That\x27s a win."]
  | "R6" => ["Maximum pressure built. Body catches up now.",
             "Strategic rest. Come back stronger.",
             "Cycle complete. Recovery earns the next round."]
  | "R13" => ["Freebies are done. Building permanent changes now.",
              "Slower but compounding. This is the real game."]
  | "R14" => ["Different equipment. Same work. Counts.",
              "Subbed in. Train to failure. It counts."]
  | "R2" => ["Fewer PRs per cycle is normal. Each one is bigger.",
             "5% per cycle. Doubles in a year.", "Compounding. Every cycle stacks."]
  | "R5" => ["This rotates. Other lifts are proving it works.",
             "Stagnant now. Will break. Keep pushing."]
  | _ => []

/-- The key string `f"{reframe_type}:{exercise or ''}:{date.today().isoformat()}"`.
`exercise or ''` maps both `None` and `""` to `""`, i.e. `getD ""`. -/
def variantKey (reframe_type : String) (exercise : Option String) (today : String) : String :=
  reframe_type ++ ":" ++ exercise.getD "" ++ ":" ++ today

/-- `_select_variant` from `game_engine.py` (lines 322–328).  `pyHash`
models the process's `hash` function on strings (CPython salts it per
process, so it is a parameter, fixed within one run); `today` is the
calendar day `date.today().isoformat()` read from the clock. -/
def selectVariant (pyHash : String → Int) (reframe_type : String)
    (exercise : Option String) (today : String) : Int :=
  let variants := REFRAME_COPY reframe_type
  if variants.isEmpty then 0
  else pyHash (variantKey reframe_type exercise today) % (variants.length : Int)

/-! ## Claim-side auxiliary definitions

Definitions below transcribe the specification's wording (not the
source), for comparison against the embedded code. -/

/-- The index a position denotes into the sorted letter list:
`(pos % num).toNat`. -/
def idxAt (letters : List String) (pos : Int) : Nat :=
  (pos % (letters.length : Int)).toNat

/-- Spec-side reading of the bad-day rule: the *distinct* exercises
among the below-threshold logs of the session. -/
def distinctBelowBestExercises (session_logs : List SessionLog)
    (best_e1rms : String → Option ℚ) : List String :=
  ((session_logs.filter (belowBestThreshold best_e1rms)).map SessionLog.exercise).dedup

/-- Concrete session for the bad-day counterexample: the same single
exercise logged twice, both times below 80 % of its best. -/
def badDayLogsOneExercise : List SessionLog :=
  [⟨"bench press", 70⟩, ⟨"bench press", 70⟩]

/-- Best map for the bad-day counterexample: `bench press` has an
all-time best of 100. -/
def badDayBestsOneExercise : String → Option ℚ :=
  fun ex => if ex = "bench press" then some 100 else none

/-- Spec-side reading of the inactivity-reset target position: the
index *after* the first rotation letter (in sorted order) containing
the exercise, wrapped modulo the letter count, or 0 when no letter
contains it. -/
def nextPositionSpec (letters : List String) (exercisesFor : String → List String)
    (ex : String) : Nat :=
  match letters.findIdx? (fun l => (exercisesFor l).contains ex) with
  | some i => (i + 1) % letters.length
  | none => 0

instance : IsTotal GainEntry gainsDescOrder :=
  ⟨fun a b => le_total b.change_pct a.change_pct⟩

instance : IsTrans GainEntry gainsDescOrder :=
  ⟨fun _ _ _ h1 h2 => le_trans h2 h1⟩

/-! ## Rotation-index lemmas

`advance_carousel` addresses letters through `letters[pos % num]`; these
lemmas record that positions `q, q+1, …, q+num-1` enumerate the letter
list bijectively. -/

lemma idxAt_lt {letters : List String} (hne : letters ≠ []) (pos : Int) :
    idxAt letters pos < letters.length := by
  have h0 : (0 : Int) < (letters.length : Int) := by
    exact_mod_cast List.length_pos.mpr hne
  have h1 := Int.emod_nonneg pos (by omega : (letters.length : Int) ≠ 0)
  have h2 := Int.emod_lt_of_pos pos h0
  unfold idxAt
  omega

lemma letterAt_eq_get {letters : List String} (hne : letters ≠ []) (pos : Int) :
    letterAt letters pos = letters.get ⟨idxAt letters pos, idxAt_lt hne pos⟩ := by
  unfold letterAt
  rw [List.getElem?_eq_getElem
    (show (pos % (letters.length : Int)).toNat < letters.length from idxAt_lt hne pos)]
  rfl

lemma letterAt_mem {letters : List String} (hne : letters ≠ []) (pos : Int) :
    letterAt letters pos ∈ letters := by
  rw [letterAt_eq_get hne]
  exact List.get_mem letters _ _

lemma idxAt_add_inj {letters : List String} (hne : letters ≠ []) {q : Int} {t₁ t₂ : Nat}
    (h₁ : t₁ < letters.length) (h₂ : t₂ < letters.length)
    (h : idxAt letters (q + t₁) = idxAt letters (q + t₂)) : t₁ = t₂ := by
  have h0 : (0 : Int) < (letters.length : Int) := by
    exact_mod_cast List.length_pos.mpr hne
  have e1 := Int.emod_nonneg (q + (t₁ : Int)) (by omega : (letters.length : Int) ≠ 0)
  have e2 := Int.emod_nonneg (q + (t₂ : Int)) (by omega : (letters.length : Int) ≠ 0)
  have hmod : (q + (t₁ : Int)) % (letters.length : Int)
      = (q + (t₂ : Int)) % (letters.length : Int) := by
    unfold idxAt at h
    omega
  have hz : ((q + (t₁ : Int)) - (q + (t₂ : Int))) % (letters.length : Int) = 0 :=
    Int.emod_eq_emod_iff_emod_sub_eq_zero.mp hmod
  have hdvd : (letters.length : Int) ∣ ((t₁ : Int) - (t₂ : Int)) := by
    have : (q + (t₁ : Int)) - (q + (t₂ : Int)) = (t₁ : Int) - (t₂ : Int) := by ring
    exact Int.dvd_of_emod_eq_zero (this ▸ hz)
  have habs : |(t₁ : Int) - (t₂ : Int)| < (letters.length : Int) := by
    rw [abs_lt]
    omega
  have := Int.eq_zero_of_abs_lt_dvd hdvd habs
  omega

lemma letterAt_add_inj {letters : List String} (hne : letters ≠ [])
    (hnd : letters.Nodup) {q : Int} {t₁ t₂ : Nat}
    (h₁ : t₁ < letters.length) (h₂ : t₂ < letters.length)
    (h : letterAt letters (q + t₁) = letterAt letters (q + t₂)) : t₁ = t₂ := by
  rw [letterAt_eq_get hne, letterAt_eq_get hne] at h
  simp only [List.get_eq_getElem] at h
  exact idxAt_add_inj hne h₁ h₂ (hnd.getElem_inj_iff.mp h)

lemma exists_letterAt_eq {letters : List String} (hne : letters ≠ []) (q : Int)
    {l : String} (hl : l ∈ letters) :
    ∃ t : Nat, t < letters.length ∧ letterAt letters (q + t) = l := by
  obtain ⟨i, hi, rfl⟩ := List.mem_iff_getElem.mp hl
  have h0 : (0 : Int) < (letters.length : Int) := by
    exact_mod_cast List.length_pos.mpr hne
  refine ⟨(((i : Int) - q) % (letters.length : Int)).toNat, ?_, ?_⟩
  · have e1 := Int.emod_nonneg ((i : Int) - q) (by omega : (letters.length : Int) ≠ 0)
    have e2 := Int.emod_lt_of_pos ((i : Int) - q) h0
    omega
  · have e1 := Int.emod_nonneg ((i : Int) - q) (by omega : (letters.length : Int) ≠ 0)
    have hidx : idxAt letters (q + ((((i : Int) - q) % (letters.length : Int)).toNat : Int)) = i := by
      unfold idxAt
      rw [Int.toNat_of_nonneg e1]
      have : (q + ((i : Int) - q) % (letters.length : Int)) % (letters.length : Int)
          = (q + ((i : Int) - q)) % (letters.length : Int) := by
        conv_rhs => rw [Int.add_emod]
        rw [Int.add_emod, Int.emod_emod_of_dvd _ (dvd_refl _)]
      rw [this]
      have hq : q + ((i : Int) - q) = (i : Int) := by ring
      rw [hq, Int.emod_eq_of_lt (by omega) (by exact_mod_cast hi)]
      omega
    rw [letterAt_eq_get hne]
    simp only [List.get_eq_getElem, hidx]

lemma forall_mem_letters_iff {letters : List String} (hne : letters ≠ []) (q : Int)
    (P : String → Prop) :
    (∀ l ∈ letters, P l) ↔
      (∀ t : Nat, t < letters.length → P (letterAt letters (q + t))) := by
  constructor
  · intro h t _
    exact h _ (letterAt_mem hne _)
  · intro h l hl
    obtain ⟨t, ht, hEq⟩ := exists_letterAt_eq hne q hl
    exact hEq ▸ h t ht

/-! ## Evaluation lemmas for the carousel transitions -/

lemma advance_eval_normal {letters : List String} (hne : letters ≠ []) (now : Int)
    (s : CarouselState) (hd : s.cycle.deload_mode = false) :
    advance_carousel letters now s =
      (if letters.all (fun l => COMPLETIONS_PER_LETTER ≤
            incrementCompletion s.completions (letterAt letters s.cycle.current_position) l) then
         some {
           state := {
             cycle := { s.cycle with
               deload_mode := true
               current_position := s.cycle.current_position + 1
               position_started_at := now }
             completions := resetCompletions }
           entered_deload := true
           cycle_reset := false
           completed_letter := letterAt letters s.cycle.current_position }
       else
         some {
           state := {
             cycle := { s.cycle with
               current_position := s.cycle.current_position + 1
               position_started_at := now }
             completions :=
               incrementCompletion s.completions (letterAt letters s.cycle.current_position) }
           entered_deload := false
           cycle_reset := false
           completed_letter := letterAt letters s.cycle.current_position }) := by
  simp only [advance_carousel]
  rw [if_neg (show ¬(letters.isEmpty = true) by simp [List.isEmpty_iff, hne])]
  rw [if_pos hd]
  split <;> rfl

lemma advance_eval_deload {letters : List String} (hne : letters ≠ []) (now : Int)
    (s : CarouselState) (hd : s.cycle.deload_mode = true) :
    advance_carousel letters now s =
      (if letters.all (fun l => 1 ≤
            incrementCompletion s.completions (letterAt letters s.cycle.current_position) l) then
         some {
           state := {
             cycle := { s.cycle with
               deload_mode := false
               cycle_number := s.cycle.cycle_number + 1
               cycle_started_at := now
               current_position := (-1 : Int) + 1
               position_started_at := now }
             completions := resetCompletions }
           entered_deload := false
           cycle_reset := true
           completed_letter := letterAt letters s.cycle.current_position }
       else
         some {
           state := {
             cycle := { s.cycle with
               current_position := s.cycle.current_position + 1
               position_started_at := now }
             completions :=
               incrementCompletion s.completions (letterAt letters s.cycle.current_position) }
           entered_deload := false
           cycle_reset := false
           completed_letter := letterAt letters s.cycle.current_position }) := by
  simp only [advance_carousel]
  rw [if_neg (show ¬(letters.isEmpty = true) by simp [List.isEmpty_iff, hne])]
  rw [if_neg (show ¬(s.cycle.deload_mode = false) by simp [hd])]
  split <;> rfl

lemma go_back_eval {letters : List String} (hne : letters ≠ []) (now : Int)
    (s : CarouselState) (hpos : 0 < s.cycle.current_position) :
    go_back_carousel letters now s =
      some {
        cycle := { s.cycle with
          deload_mode := false
          current_position := s.cycle.current_position - 1
          position_started_at := now }
        completions := fun l =>
          if l = letterAt letters (s.cycle.current_position - 1) then s.completions l - 1
          else s.completions l } := by
  unfold go_back_carousel
  rw [if_neg (by simp [List.isEmpty_iff, hne])]
  rw [if_neg (by omega)]

/-! ## Completion-counter profiles

During a run of advances starting at position `q` with all counters
equal, the counters of the letters at `q, …, q+j-1` have been bumped
once and the rest not yet; these lemmas push that profile through one
advance and decide the all-letters threshold test. -/

lemma all_threshold_of_profile {letters : List String} (hne : letters ≠ [])
    {q : Int} {j T a b : Nat} (hj : j ≤ letters.length) (comp : String → Nat)
    (hab : a = b + 1)
    (hprof : ∀ t, t < letters.length →
      comp (letterAt letters (q + t)) = if t < j then a else b) :
    ((letters.all fun l => T ≤ comp l) = true ↔
      (T ≤ a ∧ (j = letters.length ∨ T ≤ b))) := by
  rw [List.all_eq_true]
  constructor
  · intro h
    refine ⟨?_, ?_⟩
    · have hlen := List.length_pos.mpr hne
      have h0 := h _ (letterAt_mem hne (q + ((0 : Nat) : Int)))
      rw [decide_eq_true_iff, hprof 0 hlen] at h0
      by_cases h0j : 0 < j
      · rw [if_pos h0j] at h0
        exact h0
      · rw [if_neg h0j] at h0
        omega
    · by_cases hjl : j = letters.length
      · exact Or.inl hjl
      · refine Or.inr ?_
        have hjlt : j < letters.length := lt_of_le_of_ne hj hjl
        have hx := h _ (letterAt_mem hne (q + (j : Int)))
        rw [decide_eq_true_iff, hprof j hjlt, if_neg (Nat.lt_irrefl j)] at hx
        exact hx
  · rintro ⟨h1, h2⟩ l hl
    obtain ⟨t, ht, rfl⟩ := exists_letterAt_eq hne q hl
    rw [decide_eq_true_iff, hprof t ht]
    by_cases htj : t < j
    · rw [if_pos htj]
      exact h1
    · rw [if_neg htj]
      rcases h2 with h2 | h2
      · omega
      · exact h2

lemma bump_profile {letters : List String} (hne : letters ≠ []) (hnd : letters.Nodup)
    {q : Int} {j a b : Nat} (hj : j < letters.length) (comp : String → Nat)
    (hab : a = b + 1)
    (hprof : ∀ t, t < letters.length →
      comp (letterAt letters (q + t)) = if t < j then a else b) :
    ∀ t, t < letters.length →
      incrementCompletion comp (letterAt letters (q + (j : Int))) (letterAt letters (q + t))
        = if t < j + 1 then a else b := by
  intro t ht
  unfold incrementCompletion
  by_cases htj : t = j
  · subst htj
    rw [if_pos rfl, hprof t ht, if_neg (Nat.lt_irrefl t), if_pos (Nat.lt_succ_self t)]
    omega
  · rw [if_neg (fun hEq => htj (letterAt_add_inj hne hnd ht hj hEq)), hprof t ht]
    by_cases h2 : t < j
    · rw [if_pos h2, if_pos (Nat.lt_succ_of_lt h2)]
    · rw [if_neg h2, if_neg (by omega)]

/-! ## Iterating advances -/

lemma advanceTimes_cons_some {letters : List String} {t : Int} {ts : List Int}
    {s : CarouselState} {r : AdvanceResult} (h : advance_carousel letters t s = some r) :
    advanceTimes letters (t :: ts) s = advanceTimes letters ts r.state := by
  conv_lhs => unfold advanceTimes
  rw [h]

lemma advanceTimes_cons_state {letters : List String} {t : Int} {ts : List Int}
    {s s' : CarouselState} {ed cr : Bool} {cl : String}
    (h : advance_carousel letters t s = some ⟨s', ed, cr, cl⟩) :
    advanceTimes letters (t :: ts) s = advanceTimes letters ts s' := by
  conv_lhs => unfold advanceTimes
  rw [h]

lemma advanceTimes_append (letters : List String) (ts₁ ts₂ : List Int) (s : CarouselState) :
    advanceTimes letters (ts₁ ++ ts₂) s
      = advanceTimes letters ts₂ (advanceTimes letters ts₁ s) := by
  induction ts₁ generalizing s with
  | nil => rfl
  | cons t ts ih =>
    simp only [List.cons_append]
    conv_lhs => unfold advanceTimes
    conv_rhs => rw [show advanceTimes letters (t :: ts) s = (match advance_carousel letters t s with
      | some r => advanceTimes letters ts r.state
      | none => advanceTimes letters ts s) from rfl]
    cases advance_carousel letters t s with
    | some r => exact ih r.state
    | none => exact ih s

/-- Running `times.length` normal-mode advances from the mixed profile
(`j` letters already bumped from base `m`) without ever reaching the
deload trigger: the profile advances pointwise and `deload_mode` stays
false throughout. -/
lemma advance_run_normal {letters : List String} (hne : letters ≠ []) (hnd : letters.Nodup)
    (q : Int) (m : Nat) (hm : m + 1 ≤ COMPLETIONS_PER_LETTER) (times : List Int) :
    ∀ (j : Nat) (s : CarouselState),
      s.cycle.deload_mode = false →
      s.cycle.current_position = q + (j : Int) →
      (∀ u, u < letters.length →
        s.completions (letterAt letters (q + (u : Int))) = if u < j then m + 1 else m) →
      j + times.length ≤ letters.length →
      (m + 1 < COMPLETIONS_PER_LETTER ∨ j + times.length < letters.length) →
      ((advanceTimes letters times s).cycle.deload_mode = false ∧
       (advanceTimes letters times s).cycle.current_position
         = q + ((j : Int) + (times.length : Int)) ∧
       (advanceTimes letters times s).cycle.cycle_number = s.cycle.cycle_number ∧
       (∀ u, u < letters.length →
         (advanceTimes letters times s).completions (letterAt letters (q + (u : Int)))
           = if u < j + times.length then m + 1 else m)) ∧
      (∀ k, k ≤ times.length →
        (advanceTimes letters (times.take k) s).cycle.deload_mode = false) := by
  induction times with
  | nil =>
    intro j s hd hpos hprof _ _
    refine ⟨⟨hd, by simpa using hpos, rfl, by simpa using hprof⟩, ?_⟩
    intro k hk
    have : k = 0 := Nat.le_zero.mp hk
    subst this
    exact hd
  | cons t ts ih =>
    intro j s hd hpos hprof hlen hside
    simp only [List.length_cons] at hlen hside
    have h6 : COMPLETIONS_PER_LETTER = 6 := rfl
    have hj : j < letters.length := by omega
    have hprof1 : ∀ u, u < letters.length →
        incrementCompletion s.completions (letterAt letters s.cycle.current_position)
          (letterAt letters (q + (u : Int))) = if u < j + 1 then m + 1 else m := by
      rw [show letterAt letters s.cycle.current_position
            = letterAt letters (q + (j : Int)) by rw [hpos]]
      exact bump_profile hne hnd hj s.completions rfl hprof
    have hallIff := all_threshold_of_profile (T := COMPLETIONS_PER_LETTER) hne
      (j := j + 1) (by omega)
      (incrementCompletion s.completions (letterAt letters s.cycle.current_position)) rfl hprof1
    have hall : (letters.all fun l => COMPLETIONS_PER_LETTER ≤
        incrementCompletion s.completions (letterAt letters s.cycle.current_position) l)
          = false := by
      rcases Bool.eq_false_or_eq_true (letters.all fun l => COMPLETIONS_PER_LETTER ≤
        incrementCompletion s.completions (letterAt letters s.cycle.current_position) l)
        with hT | hF
      · exfalso
        rcases hallIff.mp hT with ⟨h1, h2 | h2⟩ <;> omega
      · exact hF
    have hadv := advance_eval_normal hne t s hd
    rw [if_neg (by simp [hall])] at hadv
    rw [advanceTimes_cons_state hadv]
    have hpos1 :
        ({ cycle := { s.cycle with
             current_position := s.cycle.current_position + 1
             position_started_at := t }
           completions :=
             incrementCompletion s.completions (letterAt letters s.cycle.current_position) } :
          CarouselState).cycle.current_position = q + ((j + 1 : Nat) : Int) := by
      show s.cycle.current_position + 1 = q + ((j + 1 : Nat) : Int)
      rw [hpos]
      push_cast
      ring
    obtain ⟨⟨hA, hB, hC, hD⟩, hK⟩ :=
      ih (j + 1)
        ({ cycle := { s.cycle with
             current_position := s.cycle.current_position + 1
             position_started_at := t }
           completions :=
             incrementCompletion s.completions (letterAt letters s.cycle.current_position) })
        hd hpos1 hprof1 (by omega) (by omega)
    refine ⟨⟨hA, ?_, ?_, ?_⟩, ?_⟩
    · rw [hB]
      simp only [List.length_cons]
      push_cast
      ring
    · rw [hC]
    · intro u hu
      rw [hD u hu]
      simp only [List.length_cons]
      rw [show j + 1 + ts.length = j + (ts.length + 1) from by omega]
    · intro k hk
      cases k with
      | zero => exact hd
      | succ k' =>
        rw [List.take_succ_cons, advanceTimes_cons_state hadv]
        exact hK k' (by simpa using hk)

/-- The advance that completes the normal phase: with every other
letter at the target and the current letter one short, the increment
makes every counter hit `COMPLETIONS_PER_LETTER`, so the transition
into deload fires and the counters reset. -/
lemma advance_trigger_normal {letters : List String} (hne : letters ≠ []) (hnd : letters.Nodup)
    {q : Int} {j b : Nat} (t : Int) {s : CarouselState}
    (hd : s.cycle.deload_mode = false)
    (hb : b + 1 = COMPLETIONS_PER_LETTER)
    (hj1 : j + 1 = letters.length)
    (hpos : s.cycle.current_position = q + (j : Int))
    (hprof : ∀ u, u < letters.length →
      s.completions (letterAt letters (q + (u : Int))) = if u < j then b + 1 else b) :
    advance_carousel letters t s = some {
      state := {
        cycle := { s.cycle with
          deload_mode := true
          current_position := s.cycle.current_position + 1
          position_started_at := t }
        completions := resetCompletions }
      entered_deload := true
      cycle_reset := false
      completed_letter := letterAt letters s.cycle.current_position } := by
  have hj : j < letters.length := by omega
  have hprof1 : ∀ u, u < letters.length →
      incrementCompletion s.completions (letterAt letters s.cycle.current_position)
        (letterAt letters (q + (u : Int))) = if u < j + 1 then b + 1 else b := by
    rw [show letterAt letters s.cycle.current_position
          = letterAt letters (q + (j : Int)) by rw [hpos]]
    exact bump_profile hne hnd hj s.completions rfl hprof
  have hall : (letters.all fun l => COMPLETIONS_PER_LETTER ≤
      incrementCompletion s.completions (letterAt letters s.cycle.current_position) l)
        = true :=
    (all_threshold_of_profile (T := COMPLETIONS_PER_LETTER) hne (j := j + 1) (by omega)
      _ rfl hprof1).mpr ⟨by omega, Or.inl hj1⟩
  rw [advance_eval_normal hne t s hd, if_pos hall]

/-- `b` full normal passes over the letter list from an all-equal
counter state: each pass bumps every counter once, and deload is never
entered while `b` stays below the target. -/
lemma advance_blocks_normal {letters : List String} (hne : letters ≠ []) (hnd : letters.Nodup) :
    ∀ (b : Nat), b + 1 ≤ COMPLETIONS_PER_LETTER →
    ∀ (times : List Int), times.length = b * letters.length →
    ∀ s : CarouselState, s.cycle.deload_mode = false →
      (∀ l ∈ letters, s.completions l = 0) →
      ((advanceTimes letters times s).cycle.deload_mode = false ∧
       (advanceTimes letters times s).cycle.current_position
         = s.cycle.current_position + (times.length : Int) ∧
       (∀ l ∈ letters, (advanceTimes letters times s).completions l = b) ∧
       (∀ k, k ≤ times.length →
         (advanceTimes letters (times.take k) s).cycle.deload_mode = false)) := by
  intro b
  induction b with
  | zero =>
    intro _ times hlen s hd hc
    have : times = [] := List.eq_nil_of_length_eq_zero (by simpa using hlen)
    subst this
    refine ⟨hd, by simp [advanceTimes], hc, ?_⟩
    intro k hk
    have : k = 0 := Nat.le_zero.mp hk
    subst this
    exact hd
  | succ b ih =>
    intro hb times hlen s hd hc
    have hble : b * letters.length ≤ times.length := by
      rw [hlen, Nat.succ_mul]
      omega
    have hlen1 : (times.take (b * letters.length)).length = b * letters.length := by
      rw [List.length_take]
      omega
    obtain ⟨hd1, hpos1, hall1, hint1⟩ :=
      ih (by omega) (times.take (b * letters.length)) hlen1 s hd hc
    have hlen2 : (times.drop (b * letters.length)).length = letters.length := by
      rw [List.length_drop, hlen, Nat.succ_mul]
      omega
    have hprof0 : ∀ u, u < letters.length →
        (advanceTimes letters (times.take (b * letters.length)) s).completions
          (letterAt letters
            ((advanceTimes letters (times.take (b * letters.length)) s).cycle.current_position
              + (u : Int)))
          = if u < 0 then b + 1 else b := by
      intro u hu
      rw [if_neg (Nat.not_lt_zero u)]
      exact hall1 _ (letterAt_mem hne _)
    obtain ⟨⟨hA, hB, hC, hD⟩, hK⟩ :=
      advance_run_normal hne hnd
        (advanceTimes letters (times.take (b * letters.length)) s).cycle.current_position
        b (by omega) (times.drop (b * letters.length)) 0
        (advanceTimes letters (times.take (b * letters.length)) s)
        hd1 (by simp) hprof0 (by rw [hlen2]; omega) (Or.inl (by omega))
    have hsplit : advanceTimes letters times s
        = advanceTimes letters (times.drop (b * letters.length))
            (advanceTimes letters (times.take (b * letters.length)) s) := by
      conv_lhs => rw [← List.take_append_drop (b * letters.length) times]
      rw [advanceTimes_append]
    refine ⟨by rw [hsplit]; exact hA, ?_, ?_, ?_⟩
    · rw [hsplit, hB, hpos1, hlen1, hlen2, hlen, Nat.succ_mul]
      push_cast
      ring
    · intro l hl
      obtain ⟨u, hu, hEq⟩ := exists_letterAt_eq hne
        (advanceTimes letters (times.take (b * letters.length)) s).cycle.current_position hl
      rw [hsplit, ← hEq, hD u hu, if_pos (by rw [hlen2]; omega)]
    · intro k hk
      rcases Nat.le_total k (b * letters.length) with hk1 | hk1
      · rw [show times.take k = (times.take (b * letters.length)).take k by
          rw [List.take_take, min_eq_left hk1]]
        exact hint1 k (by omega)
      · obtain ⟨k', rfl⟩ := Nat.exists_eq_add_of_le hk1
        have htk : times.take (b * letters.length + k')
            = times.take (b * letters.length) ++ (times.drop (b * letters.length)).take k' := by
          conv_lhs => rw [← List.take_append_drop (b * letters.length) times]
          rw [show b * letters.length + k' = (times.take (b * letters.length)).length + k' by
            rw [hlen1]]
          exact List.take_append k'
        rw [htk, advanceTimes_append]
        refine hK k' ?_
        rw [hlen2]
        rw [hlen, Nat.succ_mul] at hk
        omega

/-- The last normal pass: from an all-equal state one short of the
target, `letters.length` advances end with the deload transition firing
on the very last one. -/
lemma advance_final_normal_pass {letters : List String} (hne : letters ≠ [])
    (hnd : letters.Nodup) {b : Nat} (hb : b + 1 = COMPLETIONS_PER_LETTER)
    (times : List Int) (hlen : times.length = letters.length)
    (s : CarouselState) (hd : s.cycle.deload_mode = false)
    (hc : ∀ l ∈ letters, s.completions l = b) :
    (advanceTimes letters times s).cycle.deload_mode = true ∧
    (∀ l, (advanceTimes letters times s).completions l = 0) ∧
    (∀ k, k < times.length →
      (advanceTimes letters (times.take k) s).cycle.deload_mode = false) := by
  have hlp : 0 < letters.length := List.length_pos.mpr hne
  have hlen1 : (times.take (letters.length - 1)).length = letters.length - 1 := by
    rw [List.length_take]
    omega
  have hlen2 : (times.drop (letters.length - 1)).length = 1 := by
    rw [List.length_drop]
    omega
  obtain ⟨tl, htl⟩ := List.length_eq_one.mp hlen2
  have hprof0 : ∀ u, u < letters.length →
      s.completions (letterAt letters (s.cycle.current_position + (u : Int)))
        = if u < 0 then b + 1 else b := by
    intro u hu
    rw [if_neg (Nat.not_lt_zero u)]
    exact hc _ (letterAt_mem hne _)
  obtain ⟨⟨hA, hB, hC, hD⟩, hK⟩ :=
    advance_run_normal hne hnd s.cycle.current_position b (by omega)
      (times.take (letters.length - 1)) 0 s hd (by simp) hprof0
      (by rw [hlen1]; omega) (Or.inr (by rw [hlen1]; omega))
  have htrig := advance_trigger_normal hne hnd (q := s.cycle.current_position)
    (j := letters.length - 1) (b := b) tl hA hb (by omega)
    (by rw [hB, hlen1]; push_cast; omega)
    (by intro u hu; rw [hD u hu, hlen1, Nat.zero_add])
  have hsplit : advanceTimes letters times s
      = advanceTimes letters (times.drop (letters.length - 1))
          (advanceTimes letters (times.take (letters.length - 1)) s) := by
    conv_lhs => rw [← List.take_append_drop (letters.length - 1) times]
    rw [advanceTimes_append]
  rw [htl] at hsplit
  rw [hsplit, advanceTimes_cons_state htrig]
  refine ⟨rfl, fun l => rfl, ?_⟩
  intro k hk
  have hk1 : k ≤ letters.length - 1 := by omega
  rw [show times.take k = (times.take (letters.length - 1)).take k by
    rw [List.take_take, min_eq_left hk1]]
  exact hK k (by omega)

/-- C1 assembly: `letters.length * 6` normal advances from the fresh
all-zero state. -/
lemma advance_six_cycles {letters : List String} (hne : letters ≠ []) (hnd : letters.Nodup)
    (s : CarouselState) (hd : s.cycle.deload_mode = false)
    (hc : ∀ l ∈ letters, s.completions l = 0)
    (times : List Int) (hlen : times.length = letters.length * COMPLETIONS_PER_LETTER) :
    (advanceTimes letters times s).cycle.deload_mode = true ∧
    (∀ l, (advanceTimes letters times s).completions l = 0) ∧
    (∀ k, k < times.length →
      (advanceTimes letters (times.take k) s).cycle.deload_mode = false) := by
  have hC : COMPLETIONS_PER_LETTER = 6 := rfl
  have hble : 5 * letters.length ≤ times.length := by
    rw [hlen, hC]
    omega
  have hlen1 : (times.take (5 * letters.length)).length = 5 * letters.length := by
    rw [List.length_take]
    omega
  have hlen2 : (times.drop (5 * letters.length)).length = letters.length := by
    rw [List.length_drop, hlen, hC]
    omega
  obtain ⟨hd1, hpos1, hall1, hint1⟩ :=
    advance_blocks_normal hne hnd 5 (by rw [hC]) (times.take (5 * letters.length))
      (by rw [hlen1, Nat.mul_comm]) s hd hc
  obtain ⟨hA, hB, hK⟩ :=
    advance_final_normal_pass hne hnd (b := 5) (by rw [hC])
      (times.drop (5 * letters.length)) hlen2
      (advanceTimes letters (times.take (5 * letters.length)) s) hd1 hall1
  have hsplit : advanceTimes letters times s
      = advanceTimes letters (times.drop (5 * letters.length))
          (advanceTimes letters (times.take (5 * letters.length)) s) := by
    conv_lhs => rw [← List.take_append_drop (5 * letters.length) times]
    rw [advanceTimes_append]
  refine ⟨by rw [hsplit]; exact hA, by rw [hsplit]; exact hB, ?_⟩
  intro k hk
  rcases Nat.le_total k (5 * letters.length) with hk1 | hk1
  · rw [show times.take k = (times.take (5 * letters.length)).take k by
      rw [List.take_take, min_eq_left hk1]]
    exact hint1 k (by omega)
  · obtain ⟨k', rfl⟩ := Nat.exists_eq_add_of_le hk1
    have htk : times.take (5 * letters.length + k')
        = times.take (5 * letters.length) ++ (times.drop (5 * letters.length)).take k' := by
      conv_lhs => rw [← List.take_append_drop (5 * letters.length) times]
      rw [show 5 * letters.length + k' = (times.take (5 * letters.length)).length + k' by
        rw [hlen1]]
      exact List.take_append k'
    rw [htk, advanceTimes_append]
    refine hK k' ?_
    rw [hlen2]
    rw [hlen, hC] at hk
    omega

/-- Deload-mode advances that do not yet complete the pass: each one
marks the current letter done and keeps `deload_mode`, `cycle_number`
untouched. -/
lemma advance_run_deload {letters : List String} (hne : letters ≠ []) (hnd : letters.Nodup)
    (q : Int) (times : List Int) :
    ∀ (j : Nat) (s : CarouselState),
      s.cycle.deload_mode = true →
      s.cycle.current_position = q + (j : Int) →
      (∀ u, u < letters.length →
        s.completions (letterAt letters (q + (u : Int))) = if u < j then 1 else 0) →
      j + times.length < letters.length →
      ((advanceTimes letters times s).cycle.deload_mode = true ∧
       (advanceTimes letters times s).cycle.current_position
         = q + ((j : Int) + (times.length : Int)) ∧
       (advanceTimes letters times s).cycle.cycle_number = s.cycle.cycle_number ∧
       (∀ u, u < letters.length →
         (advanceTimes letters times s).completions (letterAt letters (q + (u : Int)))
           = if u < j + times.length then 1 else 0)) := by
  induction times with
  | nil =>
    intro j s hd hpos hprof _
    exact ⟨hd, by simpa using hpos, rfl, by simpa using hprof⟩
  | cons t ts ih =>
    intro j s hd hpos hprof hlen
    simp only [List.length_cons] at hlen
    have hj : j < letters.length := by omega
    have hprof1 : ∀ u, u < letters.length →
        incrementCompletion s.completions (letterAt letters s.cycle.current_position)
          (letterAt letters (q + (u : Int))) = if u < j + 1 then 1 else 0 := by
      rw [show letterAt letters s.cycle.current_position
            = letterAt letters (q + (j : Int)) by rw [hpos]]
      exact bump_profile hne hnd hj s.completions rfl hprof
    have hallIff := all_threshold_of_profile (T := 1) hne (j := j + 1) (by omega)
      (incrementCompletion s.completions (letterAt letters s.cycle.current_position))
      rfl hprof1
    have hall : (letters.all fun l => 1 ≤
        incrementCompletion s.completions (letterAt letters s.cycle.current_position) l)
          = false := by
      rcases Bool.eq_false_or_eq_true (letters.all fun l => 1 ≤
        incrementCompletion s.completions (letterAt letters s.cycle.current_position) l)
        with hT | hF
      · exfalso
        rcases hallIff.mp hT with ⟨h1, h2 | h2⟩ <;> omega
      · exact hF
    have hadv := advance_eval_deload hne t s hd
    rw [if_neg (by simp [hall])] at hadv
    rw [advanceTimes_cons_state hadv]
    have hpos1 :
        ({ cycle := { s.cycle with
             current_position := s.cycle.current_position + 1
             position_started_at := t }
           completions :=
             incrementCompletion s.completions (letterAt letters s.cycle.current_position) } :
          CarouselState).cycle.current_position = q + ((j + 1 : Nat) : Int) := by
      show s.cycle.current_position + 1 = q + ((j + 1 : Nat) : Int)
      rw [hpos]
      push_cast
      ring
    obtain ⟨hA, hB, hC, hD⟩ :=
      ih (j + 1)
        ({ cycle := { s.cycle with
             current_position := s.cycle.current_position + 1
             position_started_at := t }
           completions :=
             incrementCompletion s.completions (letterAt letters s.cycle.current_position) })
        hd hpos1 hprof1 (by omega)
    refine ⟨hA, ?_, ?_, ?_⟩
    · rw [hB]
      simp only [List.length_cons]
      push_cast
      ring
    · rw [hC]
    · intro u hu
      rw [hD u hu]
      simp only [List.length_cons]
      rw [show j + 1 + ts.length = j + (ts.length + 1) from by omega]

/-- The advance that completes the deload pass: every letter but the
current one is already marked done, so the increment completes the set,
the cycle resets, and the forced `-1` makes the unconditional increment
land on position 0. -/
lemma advance_trigger_deload {letters : List String} (hne : letters ≠ []) (hnd : letters.Nodup)
    {q : Int} {j : Nat} (t : Int) {s : CarouselState}
    (hd : s.cycle.deload_mode = true)
    (hj1 : j + 1 = letters.length)
    (hpos : s.cycle.current_position = q + (j : Int))
    (hprof : ∀ u, u < letters.length →
      s.completions (letterAt letters (q + (u : Int))) = if u < j then 1 else 0) :
    advance_carousel letters t s = some {
      state := {
        cycle := { s.cycle with
          deload_mode := false
          cycle_number := s.cycle.cycle_number + 1
          cycle_started_at := t
          current_position := (-1 : Int) + 1
          position_started_at := t }
        completions := resetCompletions }
      entered_deload := false
      cycle_reset := true
      completed_letter := letterAt letters s.cycle.current_position } := by
  have hj : j < letters.length := by omega
  have hprof1 : ∀ u, u < letters.length →
      incrementCompletion s.completions (letterAt letters s.cycle.current_position)
        (letterAt letters (q + (u : Int))) = if u < j + 1 then 1 else 0 := by
    rw [show letterAt letters s.cycle.current_position
          = letterAt letters (q + (j : Int)) by rw [hpos]]
    exact bump_profile hne hnd hj s.completions rfl hprof
  have hall : (letters.all fun l => 1 ≤
      incrementCompletion s.completions (letterAt letters s.cycle.current_position) l)
        = true :=
    (all_threshold_of_profile (T := 1) hne (j := j + 1) (by omega) _ rfl hprof1).mpr
      ⟨by omega, Or.inl hj1⟩
  rw [advance_eval_deload hne t s hd, if_pos hall]

/-- C2 assembly: `letters.length` deload advances from the all-zero
deload state complete the pass on the last one. -/
lemma advance_deload_pass {letters : List String} (hne : letters ≠ []) (hnd : letters.Nodup)
    (s : CarouselState) (hd : s.cycle.deload_mode = true)
    (hc : ∀ l ∈ letters, s.completions l = 0)
    (times : List Int) (hlen : times.length = letters.length) :
    (advanceTimes letters times s).cycle.deload_mode = false ∧
    (advanceTimes letters times s).cycle.cycle_number = s.cycle.cycle_number + 1 ∧
    (∀ l, (advanceTimes letters times s).completions l = 0) ∧
    (advanceTimes letters times s).cycle.current_position = 0 := by
  have hlp : 0 < letters.length := List.length_pos.mpr hne
  have hlen1 : (times.take (letters.length - 1)).length = letters.length - 1 := by
    rw [List.length_take]
    omega
  have hlen2 : (times.drop (letters.length - 1)).length = 1 := by
    rw [List.length_drop]
    omega
  obtain ⟨tl, htl⟩ := List.length_eq_one.mp hlen2
  have hprof0 : ∀ u, u < letters.length →
      s.completions (letterAt letters (s.cycle.current_position + (u : Int)))
        = if u < 0 then 1 else 0 := by
    intro u hu
    rw [if_neg (Nat.not_lt_zero u)]
    exact hc _ (letterAt_mem hne _)
  obtain ⟨hA, hB, hC, hD⟩ :=
    advance_run_deload hne hnd s.cycle.current_position
      (times.take (letters.length - 1)) 0 s hd (by simp) hprof0
      (by rw [hlen1]; omega)
  have htrig := advance_trigger_deload hne hnd (q := s.cycle.current_position)
    (j := letters.length - 1) tl hA (by omega)
    (by rw [hB, hlen1]; push_cast; omega)
    (by intro u hu; rw [hD u hu, hlen1, Nat.zero_add])
  have hsplit : advanceTimes letters times s
      = advanceTimes letters (times.drop (letters.length - 1))
          (advanceTimes letters (times.take (letters.length - 1)) s) := by
    conv_lhs => rw [← List.take_append_drop (letters.length - 1) times]
    rw [advanceTimes_append]
  rw [htl] at hsplit
  rw [hsplit, advanceTimes_cons_state htrig]
  refine ⟨rfl, ?_, fun l => rfl, ?_⟩
  · show (advanceTimes letters (times.take (letters.length - 1)) s).cycle.cycle_number + 1
        = s.cycle.cycle_number + 1
    rw [hC]
  · show (-1 : Int) + 1 = 0
    norm_num

/-! ## The claims -/

/-- C1: for a user with N rotation letters whose cycle state is in
Normal mode with all completion counters 0, exactly `N * 6` consecutive
advances leave `deload_mode` true with every letter's counter 0, and no
earlier advance in the sequence sets `deload_mode`. -/
theorem claim_C1_advance_monotonicity (letters : List String) (hne : letters ≠ [])
    (hnd : letters.Nodup) (s : CarouselState) (hd : s.cycle.deload_mode = false)
    (hc : ∀ l ∈ letters, s.completions l = 0)
    (times : List Int) (hlen : times.length = letters.length * 6) :
    (advanceTimes letters times s).cycle.deload_mode = true ∧
    (∀ l ∈ letters, (advanceTimes letters times s).completions l = 0) ∧
    (∀ k, k < times.length →
      (advanceTimes letters (times.take k) s).cycle.deload_mode = false) := by
  obtain ⟨h1, h2, h3⟩ := advance_six_cycles hne hnd s hd hc times hlen
  exact ⟨h1, fun l _ => h2 l, h3⟩

/-- C1 witness: two letters, twelve advances from the fresh state. -/
theorem claim_C1_witness :
    (advanceTimes ["A", "B"] (List.replicate 12 0)
        ⟨⟨0, 0, false, 0, 1⟩, fun _ => 0⟩).cycle.deload_mode = true ∧
    (∀ l ∈ ["A", "B"], (advanceTimes ["A", "B"] (List.replicate 12 0)
        ⟨⟨0, 0, false, 0, 1⟩, fun _ => 0⟩).completions l = 0) ∧
    (∀ k, k < (List.replicate 12 (0 : Int)).length →
      (advanceTimes ["A", "B"] ((List.replicate 12 (0 : Int)).take k)
        ⟨⟨0, 0, false, 0, 1⟩, fun _ => 0⟩).cycle.deload_mode = false) :=
  claim_C1_advance_monotonicity ["A", "B"] (by decide) (by decide)
    ⟨⟨0, 0, false, 0, 1⟩, fun _ => 0⟩ rfl (fun l _ => rfl)
    (List.replicate 12 0) (by decide)

/-- C2: starting in Deload with all counters 0, exactly N advances turn
`deload_mode` off, increment `cycle_number` by exactly 1, reset every
counter to 0, and leave `current_position ≡ 0 (mod N)` — indeed the
cycle-reset advance forces `-1` before the unconditional increment, so
the new position is exactly 0. -/
theorem claim_C2_deload_completion (letters : List String) (hne : letters ≠ [])
    (hnd : letters.Nodup) (s : CarouselState) (hd : s.cycle.deload_mode = true)
    (hc : ∀ l ∈ letters, s.completions l = 0)
    (times : List Int) (hlen : times.length = letters.length) :
    (advanceTimes letters times s).cycle.deload_mode = false ∧
    (advanceTimes letters times s).cycle.cycle_number = s.cycle.cycle_number + 1 ∧
    (∀ l ∈ letters, (advanceTimes letters times s).completions l = 0) ∧
    (advanceTimes letters times s).cycle.current_position % (letters.length : Int) = 0 ∧
    (advanceTimes letters times s).cycle.current_position = 0 := by
  obtain ⟨h1, h2, h3, h4⟩ := advance_deload_pass hne hnd s hd hc times hlen
  exact ⟨h1, h2, fun l _ => h3 l, by rw [h4]; simp, h4⟩

/-- C2 witness: two letters, two deload advances from position 13. -/
theorem claim_C2_witness :
    (advanceTimes ["A", "B"] [5, 9]
        ⟨⟨13, 0, true, 0, 4⟩, fun _ => 0⟩).cycle.deload_mode = false ∧
    (advanceTimes ["A", "B"] [5, 9]
        ⟨⟨13, 0, true, 0, 4⟩, fun _ => 0⟩).cycle.cycle_number = 4 + 1 ∧
    (∀ l ∈ ["A", "B"], (advanceTimes ["A", "B"] [5, 9]
        ⟨⟨13, 0, true, 0, 4⟩, fun _ => 0⟩).completions l = 0) ∧
    (advanceTimes ["A", "B"] [5, 9]
        ⟨⟨13, 0, true, 0, 4⟩, fun _ => 0⟩).cycle.current_position % ((["A", "B"].length : Nat) : Int) = 0 ∧
    (advanceTimes ["A", "B"] [5, 9]
        ⟨⟨13, 0, true, 0, 4⟩, fun _ => 0⟩).cycle.current_position = 0 :=
  claim_C2_deload_completion ["A", "B"] (by decide) (by decide)
    ⟨⟨13, 0, true, 0, 4⟩, fun _ => 0⟩ rfl (fun l _ => rfl) [5, 9] (by decide)

/-- C3: in Normal mode, when an advance does not trigger the deload
transition, an immediate go-back restores `current_position` and the
advanced-from letter's completion counter to their pre-advance values. -/
theorem claim_C3_goback_inverse (letters : List String) (hne : letters ≠ [])
    (t t' : Int) (s : CarouselState)
    (hd : s.cycle.deload_mode = false)
    (hpos : 0 ≤ s.cycle.current_position)
    (r : AdvanceResult) (hadv : advance_carousel letters t s = some r)
    (hnt : r.entered_deload = false) :
    ∃ s', go_back_carousel letters t' r.state = some s' ∧
      s'.cycle.current_position = s.cycle.current_position ∧
      s'.completions (letterAt letters s.cycle.current_position)
        = s.completions (letterAt letters s.cycle.current_position) := by
  rw [advance_eval_normal hne t s hd] at hadv
  split at hadv
  · exfalso
    rw [← Option.some_inj.mp hadv] at hnt
    exact Bool.true_eq_false.mp hnt
  · rw [← Option.some_inj.mp hadv] at hnt ⊢
    have hgb := go_back_eval hne t'
      ({ cycle := { s.cycle with
           current_position := s.cycle.current_position + 1
           position_started_at := t }
         completions :=
           incrementCompletion s.completions (letterAt letters s.cycle.current_position) } :
        CarouselState)
      (by show 0 < s.cycle.current_position + 1; omega)
    refine ⟨_, hgb, ?_, ?_⟩
    · show s.cycle.current_position + 1 - 1 = s.cycle.current_position
      ring
    · show (if letterAt letters s.cycle.current_position
          = letterAt letters (s.cycle.current_position + 1 - 1) then
            incrementCompletion s.completions (letterAt letters s.cycle.current_position)
              (letterAt letters s.cycle.current_position) - 1
          else
            incrementCompletion s.completions (letterAt letters s.cycle.current_position)
              (letterAt letters s.cycle.current_position))
        = s.completions (letterAt letters s.cycle.current_position)
      rw [show s.cycle.current_position + 1 - 1 = s.cycle.current_position by ring]
      rw [if_pos rfl]
      unfold incrementCompletion
      rw [if_pos rfl]
      omega

/-- C3 witness: advance then go back on a mid-cycle two-letter state. -/
theorem claim_C3_witness :
    ∃ r s', advance_carousel ["A", "B"] 10
        ⟨⟨3, 0, false, 0, 1⟩, fun l => if l = "B" then 2 else 1⟩ = some r ∧
      r.entered_deload = false ∧
      go_back_carousel ["A", "B"] 20 r.state = some s' ∧
      s'.cycle.current_position = 3 ∧
      s'.completions (letterAt ["A", "B"] 3) = 2 := by
  obtain ⟨s', h1, h2, h3⟩ := claim_C3_goback_inverse ["A", "B"] (by decide) 10 20
    ⟨⟨3, 0, false, 0, 1⟩, fun l => if l = "B" then 2 else 1⟩ rfl (by decide) _ rfl (by rfl)
  exact ⟨_, s', rfl, by rfl, h1, h2, h3⟩

/-- C6: while a game state's work-set count is below the charge-up
activation floor (8), no log changes `charge_up_count`, whatever the
value and whether it is a new best (`update_charge_up` returns before
touching the row; the whole row is unchanged and no event is
emitted). -/
theorem claim_C6_charge_up_floor (now : Int) (estimated_1rm : ℚ) (is_pr : Bool)
    (best_e1rm : Option ℚ) (gs : GameState)
    (h : gs.work_set_count < CHARGEUP_MIN_WORK_SETS) :
    (update_charge_up now estimated_1rm is_pr best_e1rm gs).1.charge_up_count
      = gs.charge_up_count ∧
    (update_charge_up now estimated_1rm is_pr best_e1rm gs).1 = gs ∧
    (update_charge_up now estimated_1rm is_pr best_e1rm gs).2 = none := by
  unfold update_charge_up
  rw [if_pos h]
  exact ⟨rfl, rfl, rfl⟩

/-- C6 witness: seven prior work sets, a huge new best — the counter
still reads 3 afterwards. -/
theorem claim_C6_witness :
    ({ freshGameState with work_set_count := 7, charge_up_count := 3 } : GameState).work_set_count
      < CHARGEUP_MIN_WORK_SETS ∧
    (update_charge_up 0 200 true (some 100)
      { freshGameState with work_set_count := 7, charge_up_count := 3 }).1.charge_up_count
      = 3 := by
  refine ⟨by decide, ?_⟩
  rw [(claim_C6_charge_up_floor 0 200 true (some 100)
    { freshGameState with work_set_count := 7, charge_up_count := 3 } (by decide)).1]

/-- C7: past the activation floor, a new best resets the counter to 0
and stamps `charge_up_last_updated`; a "released" event carrying the
pre-reset counter is emitted exactly when that counter was positive
(releasing from 0 resets silently); a non-best log at ≥ 85 % of a
positive existing best increments the counter capped at 5. -/
theorem claim_C7_charge_up_release (now : Int) (estimated_1rm : ℚ) (c : Nat)
    (best_e1rm : Option ℚ) (gs : GameState)
    (hfloor : CHARGEUP_MIN_WORK_SETS ≤ gs.work_set_count)
    (hc : gs.charge_up_count = c) :
    ((update_charge_up now estimated_1rm true best_e1rm gs).1.charge_up_count = 0 ∧
     (update_charge_up now estimated_1rm true best_e1rm gs).1.charge_up_last_updated
       = some now ∧
     ((update_charge_up now estimated_1rm true best_e1rm gs).2
        = some { released := true, count := c } ↔ 0 < c) ∧
     (c = 0 → (update_charge_up now estimated_1rm true best_e1rm gs).2 = none)) ∧
    (∀ b : ℚ, best_e1rm = some b → 0 < b →
      CHARGE_UP_THRESHOLD * b ≤ estimated_1rm →
      (update_charge_up now estimated_1rm false best_e1rm gs).1.charge_up_count
        = min (gs.charge_up_count + 1) CHARGE_UP_MAX ∧
      (update_charge_up now estimated_1rm false best_e1rm gs).1.charge_up_last_updated
        = some now) := by
  have hnl := Nat.not_lt.mpr hfloor
  constructor
  · unfold update_charge_up
    rw [if_neg hnl, if_pos rfl, hc]
    by_cases hc0 : 0 < c
    · rw [if_pos hc0]
      refine ⟨rfl, rfl, ?_, fun h0 => absurd h0 (by omega)⟩
      exact ⟨fun _ => hc0, fun _ => rfl⟩
    · rw [if_neg hc0]
      refine ⟨rfl, rfl, ?_, fun _ => rfl⟩
      exact ⟨fun h => absurd h (by simp), fun h => absurd h hc0⟩
  · intro b hb hbpos hth
    subst hb
    have hepos : 0 < estimated_1rm :=
      lt_of_lt_of_le (mul_pos (by norm_num [CHARGE_UP_THRESHOLD]) hbpos) hth
    have hdivth : CHARGE_UP_THRESHOLD ≤ estimated_1rm / b := (le_div_iff₀ hbpos).mpr hth
    simp only [update_charge_up]
    rw [if_neg hnl, if_neg (show ¬(false = true) by simp)]
    rw [if_pos ⟨hbpos, hepos⟩, if_pos hdivth]
    exact ⟨rfl, rfl⟩

/-- C7 witness: floor reached with counter 3 — a new best releases
with count 3; a 90 %-of-best log increments 3 → 4. -/
theorem claim_C7_witness :
    (update_charge_up 11 120 true (some 100)
      { freshGameState with work_set_count := 8, charge_up_count := 3 }).2
      = some { released := true, count := 3 } ∧
    (update_charge_up 11 90 false (some 100)
      { freshGameState with work_set_count := 8, charge_up_count := 3 }).1.charge_up_count
      = 4 := by
  have h1 := claim_C7_charge_up_release 11 120 3 (some 100)
    { freshGameState with work_set_count := 8, charge_up_count := 3 } (by decide) rfl
  have h2 := claim_C7_charge_up_release 11 90 3 (some 100)
    { freshGameState with work_set_count := 8, charge_up_count := 3 } (by decide) rfl
  refine ⟨h1.1.2.2.1.mpr (by norm_num), ?_⟩
  rw [(h2.2 100 rfl (by norm_num)
    (by rw [show CHARGE_UP_THRESHOLD = 85 / 100 from rfl]; norm_num)).1]
  decide

/-- C9: reframe variant selection is deterministic — relative to the
process's hash function (a parameter here, since CPython salts string
hashing per process), the same (type, exercise, day) tuple always
yields the same index, equal to the hash of the colon-joined key modulo
the variant count, which also places it in range. -/
theorem claim_C9_variant_determinism (pyHash : String → Int) (reframe_type : String)
    (exercise : Option String) (today : String)
    (hvar : REFRAME_COPY reframe_type ≠ []) :
    selectVariant pyHash reframe_type exercise today
      = selectVariant pyHash reframe_type exercise today ∧
    selectVariant pyHash reframe_type exercise today
      = pyHash (reframe_type ++ ":" ++ exercise.getD "" ++ ":" ++ today)
          % ((REFRAME_COPY reframe_type).length : Int) ∧
    0 ≤ selectVariant pyHash reframe_type exercise today ∧
    selectVariant pyHash reframe_type exercise today
      < ((REFRAME_COPY reframe_type).length : Int) := by
  have hlen : (0 : Int) < ((REFRAME_COPY reframe_type).length : Int) := by
    exact_mod_cast List.length_pos.mpr hvar
  have heval : selectVariant pyHash reframe_type exercise today
      = pyHash (variantKey reframe_type exercise today)
          % ((REFRAME_COPY reframe_type).length : Int) := by
    unfold selectVariant
    rw [if_neg (by simp [List.isEmpty_iff, hvar])]
  refine ⟨rfl, by rw [heval]; rfl, ?_, ?_⟩
  · rw [heval]
    exact Int.emod_nonneg _ (by omega)
  · rw [heval]
    exact Int.emod_lt_of_pos _ hlen

/-- C9 witness: a concrete hash function and the `R1` variants. -/
theorem claim_C9_witness :
    selectVariant (fun str => (str.length : Int)) "R1" none "2026-10-12"
      = (("R1" ++ ":" ++ (none : Option String).getD "" ++ ":" ++ "2026-10-12").length : Int)
          % ((REFRAME_COPY "R1").length : Int) :=
  (claim_C9_variant_determinism (fun str => (str.length : Int)) "R1" none "2026-10-12"
    (by decide)).2.1

/-! ## Field lemmas for the log-processing pipeline -/

lemma update_charge_up_below_floor (now : Int) (estimated_1rm : ℚ) (is_pr : Bool)
    (best_e1rm : Option ℚ) (gs : GameState)
    (h : gs.work_set_count < CHARGEUP_MIN_WORK_SETS) :
    update_charge_up now estimated_1rm is_pr best_e1rm gs = (gs, none) := by
  unfold update_charge_up
  rw [if_pos h]

lemma update_charge_up_work_set_count (now : Int) (estimated_1rm : ℚ) (is_pr : Bool)
    (best_e1rm : Option ℚ) (gs : GameState) :
    (update_charge_up now estimated_1rm is_pr best_e1rm gs).1.work_set_count
      = gs.work_set_count := by
  simp only [update_charge_up]
  repeat' split
  all_goals rfl

lemma update_charge_up_new_best (now : Int) (estimated_1rm : ℚ)
    (best_e1rm : Option ℚ) (gs : GameState)
    (h : ¬gs.work_set_count < CHARGEUP_MIN_WORK_SETS) :
    (update_charge_up now estimated_1rm true best_e1rm gs).1.charge_up_count = 0 := by
  simp only [update_charge_up]
  rw [if_neg h]
  rw [if_pos (show True from trivial)]
  split <;> rfl

lemma stage3_work_set_count (now : Int) (estimated_1rm : ℚ) (gs0 : GameState) :
    (updateFloorE1rm estimated_1rm
      (setFirstOnFirstLog now estimated_1rm (bumpWorkSetCount gs0))).work_set_count
      = gs0.work_set_count + 1 := by
  unfold updateFloorE1rm setFirstOnFirstLog bumpWorkSetCount
  repeat' split
  all_goals rfl

lemma stage3_charge_up_count (now : Int) (estimated_1rm : ℚ) (gs0 : GameState) :
    (updateFloorE1rm estimated_1rm
      (setFirstOnFirstLog now estimated_1rm (bumpWorkSetCount gs0))).charge_up_count
      = gs0.charge_up_count := by
  unfold updateFloorE1rm setFirstOnFirstLog bumpWorkSetCount
  repeat' split
  all_goals rfl

lemma applyChargeUpdate_pr_magnitude (base : GameUpdate) (cs : Option ChargeUpEvent) :
    (applyChargeUpdate base cs).pr_magnitude_pct = base.pr_magnitude_pct := by
  cases cs with
  | none => rfl
  | some ev =>
    simp only [applyChargeUpdate]
    by_cases hev : ev.released = true
    · rw [if_pos hev]
    · rw [if_neg hev]

lemma applyChargeUpdate_is_anomaly (base : GameUpdate) (cs : Option ChargeUpEvent) :
    (applyChargeUpdate base cs).is_anomaly = base.is_anomaly := by
  cases cs with
  | none => rfl
  | some ev =>
    simp only [applyChargeUpdate]
    by_cases hev : ev.released = true
    · rw [if_pos hev]
    · rw [if_neg hev]

lemma applyChargeUpdate_higher_low (base : GameUpdate) (cs : Option ChargeUpEvent) :
    (applyChargeUpdate base cs).higher_low = base.higher_low := by
  cases cs with
  | none => rfl
  | some ev =>
    simp only [applyChargeUpdate]
    by_cases hev : ev.released = true
    · rw [if_pos hev]
    · rw [if_neg hev]

lemma prMagnitudeAnomaly_fst_ne_none {estimated_1rm : ℚ} {is_pr : Bool}
    {best_e1rm : Option ℚ} {gs : GameState}
    (h : (prMagnitudeAnomaly estimated_1rm is_pr best_e1rm gs).1 ≠ none) :
    is_pr = true ∧ PR_MAGNITUDE_MIN_WORK_SETS ≤ gs.work_set_count := by
  by_cases hcond : is_pr = true ∧ PR_MAGNITUDE_MIN_WORK_SETS ≤ gs.work_set_count
  · exact hcond
  · exfalso
    apply h
    unfold prMagnitudeAnomaly
    rw [if_neg hcond]

lemma prMagnitudeAnomaly_snd_true {estimated_1rm : ℚ} {is_pr : Bool}
    {best_e1rm : Option ℚ} {gs : GameState}
    (h : (prMagnitudeAnomaly estimated_1rm is_pr best_e1rm gs).2 = true) :
    is_pr = true ∧ PR_MAGNITUDE_MIN_WORK_SETS ≤ gs.work_set_count := by
  by_cases hcond : is_pr = true ∧ PR_MAGNITUDE_MIN_WORK_SETS ≤ gs.work_set_count
  · exact hcond
  · exfalso
    unfold prMagnitudeAnomaly at h
    rw [if_neg hcond] at h
    exact Bool.false_ne_true h

lemma computeHigherLowOnLog_true {estimated_1rm : ℚ} {is_pr : Bool}
    {sessionOpened : Option Int} {userPrs : List PRRecord} {gs : GameState}
    (h : computeHigherLowOnLog estimated_1rm is_pr sessionOpened userPrs gs = true) :
    is_pr = false ∧ HIGHER_LOW_MIN_WORK_SETS ≤ gs.work_set_count := by
  by_cases hcond : is_pr = false ∧ HIGHER_LOW_MIN_WORK_SETS ≤ gs.work_set_count ∧
      floorTruthy gs.floor_e1rm = true
  · exact ⟨hcond.1, hcond.2.1⟩
  · exfalso
    unfold computeHigherLowOnLog at h
    rw [if_neg hcond] at h
    exact Bool.false_ne_true h

/-- C10: processing a log increments `work_set_count` before any
feature-activation threshold is evaluated, so the charge-up floor (8),
the PR-magnitude/anomaly floor (3), and the higher-low floor (10) all
compare against the count that already includes the log being
processed; in particular the 8th-ever log of an exercise can already
change `charge_up_count` (a new best then resets it to 0). -/
theorem claim_C10_count_increment_first (now : Int) (estimated_1rm : ℚ) (is_pr : Bool)
    (best_e1rm : Option ℚ) (sessionOpened : Option Int) (userPrs : List PRRecord)
    (gs0 : GameState) :
    ((update_game_state_on_log now estimated_1rm is_pr best_e1rm sessionOpened userPrs
        gs0).1.work_set_count = gs0.work_set_count + 1) ∧
    (gs0.work_set_count + 1 < CHARGEUP_MIN_WORK_SETS →
      (update_game_state_on_log now estimated_1rm is_pr best_e1rm sessionOpened userPrs
        gs0).1.charge_up_count = gs0.charge_up_count) ∧
    ((update_game_state_on_log now estimated_1rm is_pr best_e1rm sessionOpened userPrs
        gs0).2.pr_magnitude_pct ≠ none →
      is_pr = true ∧ PR_MAGNITUDE_MIN_WORK_SETS ≤ gs0.work_set_count + 1) ∧
    ((update_game_state_on_log now estimated_1rm is_pr best_e1rm sessionOpened userPrs
        gs0).2.is_anomaly = true →
      is_pr = true ∧ PR_MAGNITUDE_MIN_WORK_SETS ≤ gs0.work_set_count + 1) ∧
    ((update_game_state_on_log now estimated_1rm is_pr best_e1rm sessionOpened userPrs
        gs0).2.higher_low = true →
      HIGHER_LOW_MIN_WORK_SETS ≤ gs0.work_set_count + 1) ∧
    (gs0.work_set_count + 1 = CHARGEUP_MIN_WORK_SETS → is_pr = true →
      (update_game_state_on_log now estimated_1rm is_pr best_e1rm sessionOpened userPrs
        gs0).1.charge_up_count = 0) := by
  have hwsc := stage3_work_set_count now estimated_1rm gs0
  have hfst : (update_game_state_on_log now estimated_1rm is_pr best_e1rm sessionOpened
      userPrs gs0).1
      = (update_charge_up now estimated_1rm is_pr best_e1rm
          (updateFloorE1rm estimated_1rm
            (setFirstOnFirstLog now estimated_1rm (bumpWorkSetCount gs0)))).1 := rfl
  have hsndpr : (update_game_state_on_log now estimated_1rm is_pr best_e1rm sessionOpened
      userPrs gs0).2.pr_magnitude_pct
      = ((prMagnitudeAnomaly estimated_1rm is_pr best_e1rm
          (updateFloorE1rm estimated_1rm
            (setFirstOnFirstLog now estimated_1rm (bumpWorkSetCount gs0)))).1.map
          roundTenth) := by
    rw [show (update_game_state_on_log now estimated_1rm is_pr best_e1rm sessionOpened
      userPrs gs0).2 = applyChargeUpdate _ _ from rfl, applyChargeUpdate_pr_magnitude]
  have hsndan : (update_game_state_on_log now estimated_1rm is_pr best_e1rm sessionOpened
      userPrs gs0).2.is_anomaly
      = (prMagnitudeAnomaly estimated_1rm is_pr best_e1rm
          (updateFloorE1rm estimated_1rm
            (setFirstOnFirstLog now estimated_1rm (bumpWorkSetCount gs0)))).2 := by
    rw [show (update_game_state_on_log now estimated_1rm is_pr best_e1rm sessionOpened
      userPrs gs0).2 = applyChargeUpdate _ _ from rfl, applyChargeUpdate_is_anomaly]
  have hsndhl : (update_game_state_on_log now estimated_1rm is_pr best_e1rm sessionOpened
      userPrs gs0).2.higher_low
      = computeHigherLowOnLog estimated_1rm is_pr sessionOpened userPrs
          (update_charge_up now estimated_1rm is_pr best_e1rm
            (updateFloorE1rm estimated_1rm
              (setFirstOnFirstLog now estimated_1rm (bumpWorkSetCount gs0)))).1 := by
    rw [show (update_game_state_on_log now estimated_1rm is_pr best_e1rm sessionOpened
      userPrs gs0).2 = applyChargeUpdate _ _ from rfl, applyChargeUpdate_higher_low]
  refine ⟨?_, ?_, ?_, ?_, ?_, ?_⟩
  · rw [hfst, update_charge_up_work_set_count, hwsc]
  · intro h
    rw [hfst, update_charge_up_below_floor _ _ _ _ _ (by rw [hwsc]; exact h)]
    rw [stage3_charge_up_count]
  · intro h
    rw [hsndpr] at h
    have h2 := prMagnitudeAnomaly_fst_ne_none (by
      intro hn
      apply h
      rw [hn]
      rfl)
    rw [hwsc] at h2
    exact h2
  · intro h
    rw [hsndan] at h
    have h2 := prMagnitudeAnomaly_snd_true h
    rw [hwsc] at h2
    exact h2
  · intro h
    rw [hsndhl] at h
    have h2 := computeHigherLowOnLog_true h
    rw [update_charge_up_work_set_count, hwsc] at h2
    exact h2.2
  · intro h8 hpr
    subst hpr
    rw [hfst, update_charge_up_new_best _ _ _ _ (by rw [hwsc, h8]; omega)]

/-- C10 witness: the 8th-ever log (7 prior work sets), a new best,
charge at 3 — the counter resets to 0 on this very log. -/
theorem claim_C10_witness :
    ((update_game_state_on_log 5 120 true (some 100) none []
        { freshGameState with work_set_count := 7, charge_up_count := 3 }).1.work_set_count
      = 7 + 1) ∧
    ((update_game_state_on_log 5 120 true (some 100) none []
        { freshGameState with work_set_count := 7, charge_up_count := 3 }).1.charge_up_count
      = 0) := by
  have h := claim_C10_count_increment_first 5 120 true (some 100) none []
    { freshGameState with work_set_count := 7, charge_up_count := 3 }
  exact ⟨h.1, h.2.2.2.2.2 (by decide) rfl⟩

/-- C8 (amended): `detect_bad_day` flags a bad day if and only if at
least `BAD_DAY_MIN_EXERCISES` (2) of the session's *logs* fall below
80 % of their exercise's recorded positive best — each below-threshold
log counts, with no deduplication by exercise. -/
theorem claim_C8_bad_day_amended (session_logs : List SessionLog)
    (best_e1rms : String → Option ℚ) :
    detect_bad_day session_logs best_e1rms = true ↔
      BAD_DAY_MIN_EXERCISES ≤
        (session_logs.filter (belowBestThreshold best_e1rms)).length := by
  unfold detect_bad_day
  rw [List.countP_eq_length_filter]
  exact decide_eq_true_iff

/-- C8 counterexample: two below-threshold logs of one single exercise
do flag a bad day, though only one distinct exercise is below
threshold — refuting the claim's distinct-exercise reading. -/
theorem claim_C8_counterexample :
    detect_bad_day badDayLogsOneExercise badDayBestsOneExercise = true ∧
    (distinctBelowBestExercises badDayLogsOneExercise badDayBestsOneExercise).length = 1 := by
  have hb : belowBestThreshold badDayBestsOneExercise ⟨"bench press", 70⟩ = true := by
    unfold belowBestThreshold badDayBestsOneExercise
    rw [if_pos rfl]
    show (if (100 : ℚ) ≤ 0 then false else decide ((70 : ℚ) / 100 < BAD_DAY_THRESHOLD)) = true
    rw [if_neg (by norm_num : ¬((100 : ℚ) ≤ 0))]
    exact decide_eq_true (by norm_num [BAD_DAY_THRESHOLD])
  constructor
  · unfold detect_bad_day badDayLogsOneExercise
    rw [List.countP_cons_of_pos _ _ hb, List.countP_cons_of_pos _ _ hb]
    rfl
  · unfold distinctBelowBestExercises badDayLogsOneExercise
    rw [List.filter_cons_of_pos hb, List.filter_cons_of_pos hb]
    rfl

/-- The index the inactivity reset computes (`find?` then `indexOf`)
is the index of the first match: `findIdx?`. -/
lemma find_map_indexOf_eq_findIdx (p : String → Bool) (letters : List String) :
    (letters.find? p).map (fun l => letters.indexOf l) = letters.findIdx? p := by
  induction letters with
  | nil => rfl
  | cons a tl ih =>
    by_cases hpa : p a = true
    · rw [List.find?_cons_of_pos _ hpa, List.findIdx?_cons, if_pos hpa]
      simp [List.indexOf_cons_self]
    · rw [List.find?_cons_of_neg _ (by simpa using hpa), List.findIdx?_cons, if_neg hpa,
        List.findIdx?_succ, ← ih]
      cases hfind : tl.find? p with
      | none => rfl
      | some x =>
        have hx : p x = true := List.find?_some hfind
        have hax : a ≠ x := by
          intro hEq
          rw [← hEq] at hx
          exact (by simpa using hpa : ¬p a = true) hx
        simp [List.indexOf_cons_ne _ hax]

/-- C4: the inactivity check is a no-op for a user with no lift records
and for a most recent record younger than 7 days; from 7 days on it
resets — `current_position` goes to the slot after the first letter
containing the record's exercise (wrapped), or 0 with no match,
`deload_mode` clears, `cycle_number` increments, `cycle_started_at`
restarts and every completion counter reads 0. -/
theorem claim_C4_inactivity_reset (letters : List String)
    (exercisesFor : String → List String) (now : Int) (s : CarouselState)
    (hne : letters ≠ []) (hblank : ∀ l ∈ letters, l ≠ "") :
    (check_inactivity_reset letters none exercisesFor now s = (false, s)) ∧
    (∀ pr : PRRecord, now - pr.timestamp < 7 * 86400 →
      check_inactivity_reset letters (some pr) exercisesFor now s = (false, s)) ∧
    (∀ pr : PRRecord, 7 * 86400 ≤ now - pr.timestamp →
      (check_inactivity_reset letters (some pr) exercisesFor now s).1 = true ∧
      (check_inactivity_reset letters (some pr) exercisesFor now s).2.cycle.current_position
        = (nextPositionSpec letters exercisesFor pr.exercise : Int) ∧
      (check_inactivity_reset letters (some pr) exercisesFor now s).2.cycle.deload_mode
        = false ∧
      (check_inactivity_reset letters (some pr) exercisesFor now s).2.cycle.cycle_number
        = s.cycle.cycle_number + 1 ∧
      (check_inactivity_reset letters (some pr) exercisesFor now s).2.cycle.cycle_started_at
        = now ∧
      (∀ l, (check_inactivity_reset letters (some pr) exercisesFor now s).2.completions l
        = 0)) := by
  have hemp : ¬(letters.isEmpty = true) := by simp [List.isEmpty_iff, hne]
  refine ⟨?_, ?_, ?_⟩
  · simp only [check_inactivity_reset]
    rw [if_neg hemp]
  · intro pr h
    simp only [check_inactivity_reset]
    rw [if_neg hemp, if_pos (show now - pr.timestamp < INACTIVITY_DAYS * 86400 from h)]
  · intro pr h
    have hnl : ¬(now - pr.timestamp < INACTIVITY_DAYS * 86400) :=
      not_lt.mpr (show (7 : Int) * 86400 ≤ now - pr.timestamp from h)
    have heval : check_inactivity_reset letters (some pr) exercisesFor now s
        = (true,
          { cycle := {
              current_position :=
                ((match letters.find? (fun l => (exercisesFor l).contains pr.exercise) with
                  | some l => if l ≠ "" then (letters.indexOf l + 1) % letters.length else 0
                  | none => 0 : Nat) : Int),
              position_started_at := now,
              deload_mode := false,
              cycle_number := s.cycle.cycle_number + 1,
              cycle_started_at := now }
            completions := resetCompletions }) := by
      simp only [check_inactivity_reset]
      rw [if_neg hemp, if_neg hnl]
    rw [heval]
    refine ⟨rfl, ?_, rfl, rfl, rfl, fun l => rfl⟩
    show ((match letters.find? (fun l => (exercisesFor l).contains pr.exercise) with
        | some l => if l ≠ "" then (letters.indexOf l + 1) % letters.length else 0
        | none => 0 : Nat) : Int)
      = (nextPositionSpec letters exercisesFor pr.exercise : Int)
    congr 1
    unfold nextPositionSpec
    rw [← find_map_indexOf_eq_findIdx]
    cases hfind : letters.find? (fun l => (exercisesFor l).contains pr.exercise) with
    | none => rfl
    | some l =>
      have hl : l ∈ letters := List.mem_of_find?_eq_some hfind
      show (if l ≠ "" then (letters.indexOf l + 1) % letters.length else 0)
          = (letters.indexOf l + 1) % letters.length
      rw [if_pos (hblank l hl)]

/-- C4 witness: a record exactly 7 days and 1 second old fires the
reset onto the slot after letter `B`; one 6 days 23 hours old does
not. -/
theorem claim_C4_witness :
    (check_inactivity_reset ["A", "B"] (some ⟨"bench", 100, 0⟩)
      (fun l => if l = "B" then ["bench"] else ["squat"]) 604801
      ⟨⟨0, 0, false, 0, 1⟩, fun _ => 0⟩).1 = true ∧
    (check_inactivity_reset ["A", "B"] (some ⟨"bench", 100, 0⟩)
      (fun l => if l = "B" then ["bench"] else ["squat"]) 604801
      ⟨⟨0, 0, false, 0, 1⟩, fun _ => 0⟩).2.cycle.current_position
      = (nextPositionSpec ["A", "B"]
          (fun l => if l = "B" then ["bench"] else ["squat"]) "bench" : Int) ∧
    check_inactivity_reset ["A", "B"] (some ⟨"bench", 100, 0⟩)
      (fun l => if l = "B" then ["bench"] else ["squat"]) 601200
      ⟨⟨0, 0, false, 0, 1⟩, fun _ => 0⟩
      = (false, ⟨⟨0, 0, false, 0, 1⟩, fun _ => 0⟩) := by
  have h1 := claim_C4_inactivity_reset ["A", "B"]
    (fun l => if l = "B" then ["bench"] else ["squat"]) 604801
    ⟨⟨0, 0, false, 0, 1⟩, fun _ => 0⟩ (by decide) (by decide)
  have h2 := claim_C4_inactivity_reset ["A", "B"]
    (fun l => if l = "B" then ["bench"] else ["squat"]) 601200
    ⟨⟨0, 0, false, 0, 1⟩, fun _ => 0⟩ (by decide) (by decide)
  obtain ⟨ha, hb, _⟩ := h1.2.2 ⟨"bench", 100, 0⟩ (by norm_num)
  exact ⟨ha, hb, h2.2.1 ⟨"bench", 100, 0⟩ (by norm_num)⟩

/-- What a successful `calculate_strength_gains` returns: the
per-exercise entries sorted by descending `change_pct` and their
rounded unweighted mean (computed over the unsorted entries, which is
the same multiset). -/
lemma calculate_strength_gains_some {cs : Int} {prs : List PRRecord} {g : StrengthGains}
    (hg : calculate_strength_gains cs prs = some g) :
    g.exercises = List.insertionSort gainsDescOrder
      (((prs.filter (fun p => cs ≤ p.timestamp)).map PRRecord.exercise).dedup.filterMap
        (gainEntryFor (prs.filter (fun p => cs ≤ p.timestamp)))) ∧
    g.avg_change_pct = roundTenth
      (((((prs.filter (fun p => cs ≤ p.timestamp)).map PRRecord.exercise).dedup.filterMap
          (gainEntryFor (prs.filter (fun p => cs ≤ p.timestamp)))).map
            GainEntry.change_pct).sum
        / (((((prs.filter (fun p => cs ≤ p.timestamp)).map PRRecord.exercise).dedup.filterMap
          (gainEntryFor (prs.filter (fun p => cs ≤ p.timestamp)))).length : ℚ))) := by
  simp only [calculate_strength_gains] at hg
  by_cases h1 : ((prs.filter (fun p => cs ≤ p.timestamp)).isEmpty = true)
  · rw [if_pos h1] at hg
    cases hg
  · rw [if_neg h1] at hg
    by_cases h2 : ((((prs.filter (fun p => cs ≤ p.timestamp)).map PRRecord.exercise).dedup.filterMap
        (gainEntryFor (prs.filter (fun p => cs ≤ p.timestamp)))).isEmpty = true)
    · rw [if_pos h2] at hg
      cases hg
    · rw [if_neg h2] at hg
      injection hg with hg
      rw [← hg]
      exact ⟨rfl, rfl⟩

/-- Membership in a successful result comes from the per-exercise
computation on that entry's own name. -/
lemma calculate_strength_gains_mem {cs : Int} {prs : List PRRecord} {g : StrengthGains}
    (hg : calculate_strength_gains cs prs = some g) {e : GainEntry} (he : e ∈ g.exercises) :
    gainEntryFor (prs.filter (fun p => cs ≤ p.timestamp)) e.name = some e := by
  obtain ⟨hx, _⟩ := calculate_strength_gains_some hg
  rw [hx] at he
  have hel := (List.perm_insertionSort gainsDescOrder _).mem_iff.mp he
  obtain ⟨nm, _, hfm⟩ := List.mem_filterMap.mp hel
  have hname : e.name = nm := by
    simp only [gainEntryFor] at hfm
    split at hfm
    · cases hfm
    · split at hfm
      · cases hfm
      · injection hfm with h
        rw [← h]
  rw [hname]
  exact hfm

/-- C5: `calculate_strength_gains` excludes every exercise with fewer
than 2 records in the cycle window and every exercise whose first
window value is ≤ 0; when no exercise qualifies it returns `none`
rather than zero; otherwise the entries carry
`change_pct = (latest - first) / first * 100` (rounded to one decimal
for display, as in the source), sorted descending, together with the
rounded unweighted arithmetic mean of the entries' change
percentages — every exercise counted once. -/
theorem claim_C5_strength_gains (cycle_started_at : Int) (userPrs : List PRRecord) :
    (∀ ex : String,
      ((userPrs.filter (fun p => cycle_started_at ≤ p.timestamp)).filter
        (fun p => p.exercise = ex)).length < 2 →
      ∀ g, calculate_strength_gains cycle_started_at userPrs = some g →
        ∀ e ∈ g.exercises, e.name ≠ ex) ∧
    (∀ ex : String,
      ((((userPrs.filter (fun p => cycle_started_at ≤ p.timestamp)).filter
        (fun p => p.exercise = ex)).map PRRecord.estimated_1rm).headD 0) ≤ 0 →
      ∀ g, calculate_strength_gains cycle_started_at userPrs = some g →
        ∀ e ∈ g.exercises, e.name ≠ ex) ∧
    ((∀ ex : String,
      ¬(2 ≤ ((userPrs.filter (fun p => cycle_started_at ≤ p.timestamp)).filter
          (fun p => p.exercise = ex)).length ∧
        0 < ((((userPrs.filter (fun p => cycle_started_at ≤ p.timestamp)).filter
          (fun p => p.exercise = ex)).map PRRecord.estimated_1rm).headD 0))) →
      calculate_strength_gains cycle_started_at userPrs = none) ∧
    (∀ g, calculate_strength_gains cycle_started_at userPrs = some g →
      List.Sorted gainsDescOrder g.exercises ∧
      (∀ e ∈ g.exercises, e.change_pct = roundTenth
        (((((userPrs.filter (fun p => cycle_started_at ≤ p.timestamp)).filter
            (fun p => p.exercise = e.name)).map PRRecord.estimated_1rm).getLastD 0
          - (((userPrs.filter (fun p => cycle_started_at ≤ p.timestamp)).filter
            (fun p => p.exercise = e.name)).map PRRecord.estimated_1rm).headD 0)
          / (((userPrs.filter (fun p => cycle_started_at ≤ p.timestamp)).filter
            (fun p => p.exercise = e.name)).map PRRecord.estimated_1rm).headD 0 * 100)) ∧
      g.avg_change_pct = roundTenth
        ((g.exercises.map GainEntry.change_pct).sum / (g.exercises.length : ℚ))) := by
  refine ⟨?_, ?_, ?_, ?_⟩
  · intro ex hcount g hg e he hname
    have hfm := calculate_strength_gains_mem hg he
    rw [hname] at hfm
    simp only [gainEntryFor] at hfm
    rw [if_pos hcount] at hfm
    cases hfm
  · intro ex hfirst g hg e he hname
    have hfm := calculate_strength_gains_mem hg he
    rw [hname] at hfm
    simp only [gainEntryFor] at hfm
    by_cases hcount : ((userPrs.filter (fun p => cycle_started_at ≤ p.timestamp)).filter
        (fun p => p.exercise = ex)).length < 2
    · rw [if_pos hcount] at hfm
      cases hfm
    · rw [if_neg hcount, if_pos hfirst] at hfm
      cases hfm
  · intro hnone
    simp only [calculate_strength_gains]
    by_cases h1 : ((userPrs.filter (fun p => cycle_started_at ≤ p.timestamp)).isEmpty = true)
    · rw [if_pos h1]
    · rw [if_neg h1]
      have hempty : (((userPrs.filter (fun p => cycle_started_at ≤ p.timestamp)).map
          PRRecord.exercise).dedup.filterMap
            (gainEntryFor (userPrs.filter (fun p => cycle_started_at ≤ p.timestamp)))) = [] := by
        rw [List.filterMap_eq_nil_iff]
        intro nm _
        simp only [gainEntryFor]
        by_cases hcount : ((userPrs.filter (fun p => cycle_started_at ≤ p.timestamp)).filter
            (fun p => p.exercise = nm)).length < 2
        · rw [if_pos hcount]
        · rw [if_neg hcount]
          have hall := hnone nm
          push_neg at hall
          rw [if_pos (hall (by omega))]
      rw [if_pos (by rw [hempty]; rfl)]
  · intro g hg
    obtain ⟨hx, havg⟩ := calculate_strength_gains_some hg
    refine ⟨?_, ?_, ?_⟩
    · rw [hx]
      exact List.sorted_insertionSort gainsDescOrder _
    · intro e he
      have hfm := calculate_strength_gains_mem hg he
      simp only [gainEntryFor] at hfm
      split at hfm
      · cases hfm
      · split at hfm
        · cases hfm
        · injection hfm with h
          rw [← h]
    · rw [havg, hx]
      have hperm : List.Perm
          (List.insertionSort gainsDescOrder
            (((userPrs.filter (fun p => cycle_started_at ≤ p.timestamp)).map
              PRRecord.exercise).dedup.filterMap
                (gainEntryFor (userPrs.filter (fun p => cycle_started_at ≤ p.timestamp)))))
          (((userPrs.filter (fun p => cycle_started_at ≤ p.timestamp)).map
            PRRecord.exercise).dedup.filterMap
              (gainEntryFor (userPrs.filter (fun p => cycle_started_at ≤ p.timestamp)))) :=
        List.perm_insertionSort gainsDescOrder _
      rw [(hperm.map GainEntry.change_pct).sum_eq, hperm.length_eq]

/-- C5 witness: a single record in the window qualifies no exercise, so
the analyzer returns no data rather than zero. -/
theorem claim_C5_witness :
    calculate_strength_gains 0 [⟨"solo", 1, 5⟩] = none := by
  apply (claim_C5_strength_gains 0 [⟨"solo", 1, 5⟩]).2.2.1
  intro ex
  rintro ⟨h2, _⟩
  have hle : ((([⟨"solo", 1, 5⟩] : List PRRecord).filter
      (fun p => (0 : Int) ≤ p.timestamp)).filter (fun p => p.exercise = ex)).length ≤ 1 := by
    calc ((([⟨"solo", 1, 5⟩] : List PRRecord).filter
        (fun p => (0 : Int) ≤ p.timestamp)).filter (fun p => p.exercise = ex)).length
        ≤ (([⟨"solo", 1, 5⟩] : List PRRecord).filter
          (fun p => (0 : Int) ≤ p.timestamp)).length := List.length_filter_le _ _
      _ ≤ 1 := List.length_filter_le _ _
  omega

end TTM
